import Mathlib

/-!
# fat-gundel: recovering JPEG images from a FAT medium

A shallow embedding of `fat-gundel.c` and the properties of its geometry
resolution, signature scan, ownership map and carve loop.

Conventions of the embedding.

* A C `int` is an `Int`; where the program's arithmetic can leave the 32-bit
  range the result is reduced with `wrap32` (two's complement).
* The device behind the file descriptor is a `Device`: a byte length and the
  byte stored at each offset.
* The 4096-byte buffer `buf` of `main` is a list of bytes that every function
  receives and hands back, as the C functions share it through a pointer.
* A call of `exit` (or a fault) is an `Except.error` carrying the reason; the
  diagnostic output on stdout/stderr is not part of the state and is left out.
* The environment is read through `getenv` and `atoi`; `Env` holds the values
  `atoi` returns.
* Output files open, take every byte handed to `write`, and close; `malloc` and
  `realloc` return memory.  The bytes written for one image are a list.
* Where the C program leaves defined behaviour (a `read` beyond the buffer, an
  array index outside the array `sect_list` allocated) the embedding stops with
  an outcome of its own, so that nothing is stated about what follows.
-/

namespace FatGundel

/-! ## Machine arithmetic -/

/-- Two's-complement value of an integer stored in a 32-bit C `int`. -/
def wrap32 (x : Int) : Int := (x + 2147483648) % 4294967296 - 2147483648

/-- Value of an integer stored in a (signed, 8-bit) C `char`. -/
def wrap8 (x : Int) : Int := (x + 128) % 256 - 128

/-- Value of an integer stored in an `unsigned short`. -/
def wrap_u16 (x : Int) : Nat := (x % 65536).toNat

/-! ## Device, buffer, environment -/

deriving instance DecidableEq for Except

/-- The medium opened by `main`: `size` is what `lseek(fd, 0, SEEK_END)`
reports, `byte k` the byte at offset `k`. -/
structure Device where
  size : Nat
  byte : Nat → Fin 256

/-- The sector buffer `unsigned char buf[4096]`. -/
abbrev Buf := List Nat

/-- The C expression `buf[k]`. -/
def Buf.at (buf : Buf) (k : Nat) : Nat := buf.getD k 0

/-- The environment variables the program consults.  `FAT_NO_SIG` records
whether the variable is set; the other three hold the value `atoi` returns
for the variable's text, or `none` when the variable is not set. -/
structure Env where
  FAT_NO_SIG : Bool
  FAT_SECTOR_SIZE : Option Int
  FAT_TYPE : Option Int
  FAT_SECTORS_TOTAL : Option Int
  deriving DecidableEq, Repr

/-- Ways in which the process ends before a function returns. -/
inductive Abort where
  /-- `lseek` rejected the offset (`read_sector`, first `exit(0)`). -/
  | seek_failed
  /-- `read` delivered fewer than `sector_size` bytes (`read_sector`). -/
  | read_failed
  /-- The `read` of `read_sector` leaves defined behaviour: its byte count is
  negative as an `int`, or it delivers more than the 4096 bytes of `buf`. -/
  | undefined_read
  /-- The boot signature test of `read_bootsector` called `exit(0)`. -/
  | no_signature
  /-- Integer division by a zero `sector_size` in `read_bootsector`. -/
  | division_by_zero
  deriving DecidableEq, Repr

/-- The global `struct bootsector bs`. -/
structure bootsector where
  sector_size : Int
  sectors_total : Int
  cluster_size : Int
  oem_name : List Nat
  volume_label : List Nat
  fs_type : List Nat
  fat_type : Int
  serial_num : Int
  deriving DecidableEq, Repr

/-- The zero-initialised static `bs` at program start. -/
def bs_initial : bootsector :=
  { sector_size := 0, sectors_total := 0, cluster_size := 0,
    oem_name := List.replicate 10 0, volume_label := List.replicate 12 0,
    fs_type := List.replicate 10 0, fat_type := 0, serial_num := 0 }

/-! ## read_sector -/

/-- The bytes `read(fd, buf, count)` delivers at file offset `off`: at most
`count`, and no more than the device holds from `off` on. -/
def device_read (dev : Device) (off count : Nat) : List Nat :=
  (List.range (min count (dev.size - off))).map (fun k => (dev.byte (off + k)).val)

/-- `read_sector(fd, buf, sector_nr)`: seek to `bs.sector_size * sector_nr`
(an `int` product), read `bs.sector_size` bytes into the front of `buf`.
Returns the buffer after the read.  A negative offset makes `lseek` fail; a
read that delivers fewer than `bs.sector_size` bytes ends the process.  A
negative `bs.sector_size` is no byte count, and more than 4096 bytes delivered
overrun `buf`: both are `undefined_read`. -/
def read_sector (dev : Device) (bs : bootsector) (buf : Buf) (sector_nr : Int) :
    Except Abort Buf :=
  let off := wrap32 (bs.sector_size * sector_nr)
  if off < 0 then .error .seek_failed
  else if bs.sector_size < 0 then .error .undefined_read
  else
    let data := device_read dev off.toNat bs.sector_size.toNat
    if 4096 < data.length then .error .undefined_read
    else if (data.length : Int) < bs.sector_size then .error .read_failed
    else .ok (data ++ buf.drop data.length)

/-! ## find_jpeg_header and find_images -/

/-- The part of `find_jpeg_header` after the read, on the buffer it filled:
0 when the sector does not start with `ff d8`, otherwise `(t[0] << 8) | t[1]`,
where `t` is `"jpeg"` unless bytes 2-3 are an `ff e0`/`ff e1` marker, in which
case bytes 6..9 are copied into `t`. -/
def jpeg_header (buf : Buf) : Int :=
  if buf.at 0 ≠ 0xff ∨ buf.at 1 ≠ 0xd8 then 0
  else
    let t : List Nat := [0x6a, 0x70, 0x65, 0x67, 0]
    let t : List Nat :=
      if buf.at 2 = 0xff ∧ (buf.at 3) &&& 0xfe = 0xe0 then
        [buf.at 6, buf.at 7, buf.at 8, buf.at 9, t.getD 4 0]
      else t
    let t := t.set 4 0
    ((((t.getD 0 0) <<< 8) ||| (t.getD 1 0) : Nat) : Int)

/-- `find_jpeg_header(fd, buf, sector)`: the buffer after reading the sector
and the returned `int`. -/
def find_jpeg_header (dev : Device) (bs : bootsector) (buf : Buf) (sector : Int) :
    Except Abort (Buf × Int) :=
  match read_sector dev bs buf sector with
  | .error e => .error e
  | .ok buf => .ok (buf, jpeg_header buf)

/-- The C `struct image`. -/
structure image where
  id : Int
  type : Int
  start : Int
  deriving DecidableEq, Repr

/-- The body of the `for` loop of `find_images`, run for the `count` sector
indices `i, i+1, ..`; `l` is `l.img[0 .. l.cnt-1]`, so `l.cnt` is `l.length`. -/
def find_images_loop (dev : Device) (bs : bootsector) :
    Nat → Int → Buf → List image → Except Abort (Buf × List image)
  | 0, _, buf, l => .ok (buf, l)
  | count + 1, i, buf, l =>
    match find_jpeg_header dev bs buf i with
    | .error e => .error e
    | .ok (buf, t) =>
      if t ≠ 0 then
        find_images_loop dev bs count (i + 1) buf
          (l ++ [{ id := (l.length : Int), start := i, type := t }])
      else
        find_images_loop dev bs count (i + 1) buf l

/-- `find_images(fd, buf)`: the loop `for (i = 1; i < bs.sectors_total; i++)`,
which runs `sectors_total - 1` times (not at all when that is not positive). -/
def find_images (dev : Device) (bs : bootsector) (buf : Buf) :
    Except Abort (Buf × List image) :=
  find_images_loop dev bs (bs.sectors_total - 1).toNat 1 buf []

/-! ## sect_list -/

/-- The second loop of `sect_list`: `s[il->img[i].start].img_nr = i` for the
images from position `i` on.  The field is an `unsigned short`, so the stored
value is `i` reduced modulo 65536.  A start sector outside the array is an
out-of-bounds store, reported as `none`. -/
def sect_list_fill : List image → Int → List Nat → Option (List Nat)
  | [], _, s => some s
  | img :: rest, i, s =>
    if 0 ≤ img.start ∧ img.start < (s.length : Int) then
      sect_list_fill rest (i + 1) (s.set img.start.toNat (wrap_u16 i))
    else none

/-- `sect_list(il)`: an array of `bs.sectors_total` entries, all set to
`0xffff`, then the start sector of every image marked with the image's index. -/
def sect_list (bs : bootsector) (il : List image) : Option (List Nat) :=
  sect_list_fill il 0 (List.replicate bs.sectors_total.toNat 0xffff)

/-! ## The carve loop of main -/

/-- How the `while` loop that writes one image ends. -/
inductive CarveEnd where
  /-- The loop condition was false: the entry read is another image's number. -/
  | stopped
  /-- `read_sector` ended the process. -/
  | aborted (e : Abort)
  /-- The loop condition read `sl[sect]` with `sect` outside the array. -/
  | map_overrun
  /-- The iteration bound of the embedding was used up. -/
  | out_of_fuel
  deriving DecidableEq, Repr

/-- State when the `while` loop of one image ends: the bytes written to the
output file, the counter `n`, the index `sect`, the buffer, and the way the
loop ended. -/
structure CarveResult where
  out : List Nat
  n : Int
  sect : Int
  buf : Buf
  ending : CarveEnd
  deriving DecidableEq, Repr

/-- The C expression `sl[sect].img_nr`, `none` when `sect` is not an index of
the array. -/
def sl_at (sl : List Nat) (sect : Int) : Option Nat :=
  if 0 ≤ sect then sl[sect.toNat]? else none

/-- The loop
`while ((sl[sect].img_nr == 0xffff) || (sl[sect].img_nr == i))
   { read_sector(ifd, buf, sect); write(ofd, buf, bs.sector_size); sect++; n++; }`
with the output file taking every byte handed to `write`. -/
def carve_loop (dev : Device) (bs : bootsector) (sl : List Nat) (i : Int) :
    Nat → Int → Int → Buf → List Nat → CarveResult
  | 0, sect, n, buf, out => ⟨out, n, sect, buf, .out_of_fuel⟩
  | fuel + 1, sect, n, buf, out =>
    match sl_at sl sect with
    | none => ⟨out, n, sect, buf, .map_overrun⟩
    | some nr =>
      if nr = 0xffff ∨ (nr : Int) = i then
        match read_sector dev bs buf sect with
        | .error e => ⟨out, n, sect, buf, .aborted e⟩
        | .ok buf =>
          carve_loop dev bs sl i fuel (sect + 1) (n + 1) buf
            (out ++ buf.take bs.sector_size.toNat)
      else ⟨out, n, sect, buf, .stopped⟩

/-- The body of the `for` loop of `main` for image `i` starting at sector
`start`: `n = 0`, `sect = start`, then the `while` loop.  The loop leaves the
array after at most `sl.length` rounds, so the bound is never used up. -/
def carve_image (dev : Device) (bs : bootsector) (sl : List Nat) (i start : Int)
    (buf : Buf) : CarveResult :=
  carve_loop dev bs sl i (sl.length + 1) start 0 buf []

/-- The loop `for (i = 0; i < il->cnt; i++)` of `main` from index `i` on: one
`CarveResult` per image processed.  The loop goes on to the next image only
when the `while` loop of the current one ended by its condition. -/
def carve_images (dev : Device) (bs : bootsector) (sl : List Nat) :
    List image → Int → Buf → List CarveResult
  | [], _, _ => []
  | img :: rest, i, buf =>
    let r := carve_image dev bs sl i img.start buf
    if r.ending = .stopped then r :: carve_images dev bs sl rest (i + 1) r.buf
    else [r]

/-! ## read_bootsector -/

/-- The expression `buf[k] + (buf[k+1] << 8)`. -/
def le16 (buf : Buf) (k : Nat) : Int :=
  ((buf.at k + (buf.at (k + 1) <<< 8) : Nat) : Int)

/-- The expression `buf[k]|(buf[k+1]<<8)|(buf[k+2]<<16)|(buf[k+3]<<24)` as the
`int` it is assigned to. -/
def le32 (buf : Buf) (k : Nat) : Int :=
  wrap32 ((buf.at k ||| (buf.at (k + 1) <<< 8) ||| (buf.at (k + 2) <<< 16)
    ||| (buf.at (k + 3) <<< 24) : Nat) : Int)

/-- The expression `(c >= ' ' && c < 128) ? c : '#'`. -/
def sanitize (c : Nat) : Nat := if c ≥ 0x20 ∧ c < 128 then c else 0x23

/-- The loop `for (i = first; i <= first+count-1; i++) field[i-first] = ...`
followed by `field[i-first] = 0`, on the char array `field`. -/
def copy_text (buf : Buf) (first count : Nat) (field : List Nat) : List Nat :=
  ((List.range count).foldl (fun f k => f.set k (sanitize (buf.at (first + k)))) field).set
    count 0

/-- The signature test `buf[510] != 0x55 && buf[511] != 0xaa` together with
`!getenv("FAT_NO_SIG")`: true when `read_bootsector` calls `exit(0)` there. -/
def signature_exit (env : Env) (buf : Buf) : Bool :=
  (buf.at 510 != 0x55 && buf.at 511 != 0xaa) && !env.FAT_NO_SIG

/-- Lines 101-105: sector size, 16-bit sector count, cluster size, OEM name. -/
def parse_fields (bs : bootsector) (buf : Buf) : bootsector :=
  { bs with
    sector_size := le16 buf 11
    sectors_total := le16 buf 19
    cluster_size := (buf.at 13 : Int)
    oem_name := copy_text buf 3 8 bs.oem_name }

/-- Lines 109-122: the `switch` on `bs.sector_size`; any value other than 512,
1024, 2048, 4096 is replaced by `atoi` of `FAT_SECTOR_SIZE`, or of `"512"`. -/
def check_sector_size (env : Env) (bs : bootsector) : bootsector :=
  if bs.sector_size = 512 ∨ bs.sector_size = 1024 ∨ bs.sector_size = 2048
      ∨ bs.sector_size = 4096 then bs
  else { bs with sector_size := env.FAT_SECTOR_SIZE.getD 512 }

/-- Lines 124-134: the two `if` statements on `buf[38]` and `buf[66]`; the
`else` belongs to the second one.  The field is a `char`. -/
def detect_fat_type (env : Env) (bs : bootsector) (buf : Buf) : bootsector :=
  let bs := if buf.at 38 = 0x29 ∨ buf.at 38 = 0x28 then { bs with fat_type := 16 } else bs
  if buf.at 66 = 0x29 then { bs with fat_type := 32 }
  else { bs with fat_type := wrap8 (env.FAT_TYPE.getD 16) }

/-- Lines 136-139: the 32-bit sector count replaces a zero 16-bit one. -/
def reread_sectors_total (bs : bootsector) (buf : Buf) : bootsector :=
  if bs.sectors_total = 0 ∧ bs.fat_type > 12 then { bs with sectors_total := le32 buf 32 }
  else bs

/-- Lines 141-160: serial number, volume label and file system type. -/
def extended_fields (bs : bootsector) (buf : Buf) : bootsector :=
  if bs.fat_type = 16 then
    { bs with
      serial_num := le32 buf 39
      volume_label := copy_text buf 43 11 bs.volume_label
      fs_type := copy_text buf 54 8 bs.fs_type }
  else if bs.fat_type = 32 then
    { bs with
      serial_num := le32 buf 67
      volume_label := copy_text buf 71 11 bs.volume_label
      fs_type := copy_text buf 82 8 bs.fs_type }
  else bs

/-- Lines 162-167: a sector count of 0 or 0xffff is replaced by
`lseek(fd, 0, SEEK_END) / bs.sector_size`, a division of C (rounding towards
zero) whose quotient is stored in an `int`. -/
def size_fallback (dev : Device) (bs : bootsector) : Except Abort bootsector :=
  if bs.sectors_total = 0 ∨ bs.sectors_total = 0xffff then
    if bs.sector_size = 0 then .error .division_by_zero
    else .ok { bs with sectors_total := wrap32 (Int.tdiv (dev.size : Int) bs.sector_size) }
  else .ok bs

/-- Lines 168-172: `FAT_SECTORS_TOTAL` replaces the sector count. -/
def apply_override (env : Env) (bs : bootsector) : bootsector :=
  match env.FAT_SECTORS_TOTAL with
  | some ss => { bs with sectors_total := ss }
  | none => bs

/-- The state of `bs` when `read_bootsector` reaches line 162, from the
buffer holding sector 0. -/
def decode_bootsector (env : Env) (bs : bootsector) (buf : Buf) : bootsector :=
  let bs := parse_fields bs buf
  let bs := check_sector_size env bs
  let bs := detect_fat_type env bs buf
  let bs := reread_sectors_total bs buf
  extended_fields bs buf

/-- `read_bootsector(fd, buf)` started with the global `bs`: the buffer and
the global `bs` on return (the function's own return value is `bs.fat_type`).
The five-second pause after a missing signature does not change the state. -/
def read_bootsector (dev : Device) (env : Env) (bs : bootsector) (buf : Buf) :
    Except Abort (Buf × bootsector) :=
  let bs := { bs with sector_size := 512 }
  match read_sector dev bs buf 0 with
  | .error e => .error e
  | .ok buf =>
    if signature_exit env buf then .error .no_signature
    else
      match size_fallback dev (decode_bootsector env bs buf) with
      | .error e => .error e
      | .ok bs => .ok (buf, apply_override env bs)

/-! ## The scan as main runs it -/

/-- Lines 307-310 of `main`: `read_bootsector(ifd, buf)` on the fresh global
`bs`, then `find_images(ifd, buf)` under the geometry it left in `bs`. -/
def scan_device (dev : Device) (env : Env) (buf : Buf) :
    Except Abort (bootsector × Buf × List image) :=
  match read_bootsector dev env bs_initial buf with
  | .error e => .error e
  | .ok (buf, bs) =>
    match find_images dev bs buf with
    | .error e => .error e
    | .ok (buf, il) => .ok (bs, buf, il)

/-! ## Notions the properties are stated with -/

/-- Sector `n` of the device under sector size `ss`: the bytes at offsets
`ss * n .. ss * n + ss - 1`. -/
def sector_bytes (dev : Device) (ss n : Nat) : List Nat :=
  (List.range ss).map (fun k => (dev.byte (ss * n + k)).val)

/-- The sectors `a, a+1, .., a+count-1` of the device, concatenated. -/
def sector_run (dev : Device) (ss a : Nat) : Nat → List Nat
  | 0 => []
  | count + 1 => sector_bytes dev ss a ++ sector_run dev ss (a + 1) count

/-- Sector `n` lies wholly on the device and its byte offset is an `int`. -/
def sector_ok (dev : Device) (ss n : Nat) : Prop :=
  ss * n < 2147483648 ∧ ss * n + ss ≤ dev.size

/-- The little-endian 16-bit number stored at offsets `k, k+1` of the device. -/
def dev_le16 (dev : Device) (k : Nat) : Nat :=
  (dev.byte k).val + 256 * (dev.byte (k + 1)).val

/-- The little-endian 32-bit number stored at offsets `k .. k+3` of the device. -/
def dev_le32 (dev : Device) (k : Nat) : Nat :=
  (dev.byte k).val + 256 * (dev.byte (k + 1)).val + 65536 * (dev.byte (k + 2)).val
    + 16777216 * (dev.byte (k + 3)).val

/-- Invariant of the list the scan builds: ids are positions, start sectors
increase strictly and lie in `lo .. hi-1`. -/
def scan_inv (lo hi : Int) (l : List image) : Prop :=
  (∀ k (hk : k < l.length), l[k].id = (k : Int)) ∧
  l.Pairwise (fun a b => a.start < b.start) ∧
  ∀ x ∈ l, lo ≤ x.start ∧ x.start < hi

/-! ## A small medium used to instantiate the properties -/

/-- The global `bs` after `read_bootsector` ran on a medium
whose boot sector holds zero bytes in its text fields, with sector size 512
and the sector count `total`. -/
def resolved_bs (total : Int) : bootsector :=
  { sector_size := 512, sectors_total := total, cluster_size := 0,
    oem_name := [35, 35, 35, 35, 35, 35, 35, 35, 0, 0],
    volume_label := [35, 35, 35, 35, 35, 35, 35, 35, 35, 35, 35, 0],
    fs_type := [35, 35, 35, 35, 35, 35, 35, 35, 0, 0],
    fat_type := 16, serial_num := 0 }

/-- The environment with `FAT_SECTOR_SIZE=1024` and nothing else set. -/
def env_size_1024 : Env := ⟨false, some 1024, none, none⟩

/-- An eight-sector medium with 512-byte sectors: a boot sector with the
`55 aa` signature, sector size 512 and sector count 8, and the marker `ff d8`
at the start of sectors 2 and 5. -/
def tiny_dev : Device :=
  { size := 4096
    byte := fun k =>
      if k = 12 then 0x02 else if k = 19 then 8 else
      if k = 510 then 0x55 else if k = 511 then 0xaa else
      if k = 1024 ∨ k = 2560 then 0xff else
      if k = 1025 ∨ k = 2561 then 0xd8 else 0 }

/-- The geometry `read_bootsector` resolves on `tiny_dev`. -/
def tiny_bs : bootsector := resolved_bs 8

/-- No environment variable set. -/
def env_none : Env := ⟨false, none, none, none⟩

/-- The images on `tiny_dev`: sectors 2 and 5, both tagged `jp`. -/
def tiny_images : List image := [⟨0, 27248, 2⟩, ⟨1, 27248, 5⟩]

/-- A geometry of 65538 sectors of 512 bytes: the one `read_bootsector`
resolves on `big_dev` under `FAT_NO_SIG`. -/
def big_bs : bootsector := resolved_bs 65538

/-- The environment with `FAT_NO_SIG=1` and nothing else set. -/
def env_no_sig : Env := ⟨true, none, none, none⟩

/-- The image the scan of `big_dev` records for the `k`-th sector after sector
`a`, when `base` images were recorded before sector `a`. -/
def marker_image (base a k : Nat) : image :=
  { id := ((base + k : Nat) : Int), type := 27248, start := ((a + k : Nat) : Int) }

/-- The list of 65537 images that start at the sectors 1, 2, .., 65537. -/
def big_images : List image := (List.range 65537).map (marker_image 0 1)

/-- A medium of 65538 sectors of 512 bytes in which every sector starts with
the marker `ff d8` and is zero elsewhere.  Its first sector has no boot
signature, a zero sector-size field and zero sector counts. -/
def big_dev : Device :=
  { size := 33555456
    byte := fun k => if k % 512 = 0 then 0xff else if k % 512 = 1 then 0xd8 else 0 }

/-- The buffer after `read_bootsector` read sector 0 with the provisional
sector size 512. -/
def boot_buf (dev : Device) (buf : Buf) : Buf := sector_bytes dev 512 0 ++ buf.drop 512

/-! ## Media used as inputs on which a stated property fails -/

/-- A two-sector medium with a well-formed boot sector (signature, sector size
512, sector count 2) whose sector 1 starts `ff d8 ff e0 00 10 00 00`: the
marker, an application marker, and zero bytes where the tag is read. -/
def zero_tag_dev : Device :=
  { size := 1024
    byte := fun k =>
      if k = 12 then 0x02 else if k = 19 then 2 else
      if k = 510 then 0x55 else if k = 511 then 0xaa else
      if k = 512 then 0xff else if k = 513 then 0xd8 else
      if k = 514 then 0xff else if k = 515 then 0xe0 else
      if k = 517 then 0x10 else 0 }

/-- An eight-sector medium whose boot sector ends in `55 00`: the first byte
of the signature is right, the second is not. -/
def half_sig_dev : Device :=
  { size := 4096
    byte := fun k =>
      if k = 12 then 0x02 else if k = 19 then 8 else
      if k = 510 then 0x55 else 0 }

/-- An eight-sector medium with a well-formed boot sector whose 16-bit sector
count field holds `0xffff`. -/
def sentinel_dev : Device :=
  { size := 4096
    byte := fun k =>
      if k = 12 then 0x02 else if k = 19 then 0xff else if k = 20 then 0xff else
      if k = 510 then 0x55 else if k = 511 then 0xaa else 0 }

/-- A medium of one tebibyte with a well-formed boot sector (sector size 512)
whose sector count fields are zero. -/
def huge_dev : Device :=
  { size := 1099511627776
    byte := fun k =>
      if k = 12 then 0x02 else
      if k = 510 then 0x55 else if k = 511 then 0xaa else 0 }

/-- An eight-sector medium whose boot sector has the signature, the sector
size field 300 and zero sector count fields. -/
def odd_size_dev : Device :=
  { size := 4096
    byte := fun k =>
      if k = 11 then 0x2c else if k = 12 then 0x01 else
      if k = 510 then 0x55 else if k = 511 then 0xaa else 0 }

/-- The environment with `FAT_SECTOR_SIZE=0` and nothing else set. -/
def env_size_zero : Env := ⟨false, some 0, none, none⟩

/-- The environment with `FAT_SECTORS_TOTAL=6` and nothing else set. -/
def env_total_six : Env := ⟨false, none, none, some 6⟩

/-- The environment with `FAT_SECTOR_SIZE=300` and nothing else set. -/
def env_size_300 : Env := ⟨false, some 300, none, none⟩

/-- The environment with `FAT_TYPE=12` and nothing else set. -/
def env_type_12 : Env := ⟨false, none, some 12, none⟩

/-- An eight-sector medium with a well-formed boot sector (sector size 512,
sector count 8) that carries the FAT16 marker `0x29` at offset 38 and no FAT32
marker at offset 66. -/
def fat16_dev : Device :=
  { size := 4096
    byte := fun k =>
      if k = 12 then 0x02 else if k = 19 then 8 else if k = 38 then 0x29 else
      if k = 510 then 0x55 else if k = 511 then 0xaa else 0 }

/-- A medium of 31332352 sectors of 512 bytes, the sector count the program's
own hint `FAT_SECTORS_TOTAL=31332352` names, with a well-formed boot sector:
sector size 512, 16-bit count 0, 32-bit count 31332352 (`00 18 de 01`). -/
def card_dev : Device :=
  { size := 16042164224
    byte := fun k =>
      if k = 12 then 0x02 else
      if k = 33 then 0x18 else if k = 34 then 0xde else if k = 35 then 0x01 else
      if k = 510 then 0x55 else if k = 511 then 0xaa else 0 }

/-- An eight-sector medium with a well-formed boot sector (sector size 512,
sector count 8) whose OEM name starts with the byte `0x7f` (DEL). -/
def del_dev : Device :=
  { size := 4096
    byte := fun k =>
      if k = 3 then 0x7f else if k = 12 then 0x02 else if k = 19 then 8 else
      if k = 510 then 0x55 else if k = 511 then 0xaa else 0 }

/-- A four-sector medium with a well-formed boot sector (sector size 512,
sector count 4); sector 1 starts with a JFIF header
`ff d8 ff e0 00 10 4a 46 49 46`, sector 2 with an Exif header
`ff d8 ff e1 00 10 45 78 69 66`, sector 3 with the bare marker `ff d8`. -/
def tagged_dev : Device :=
  { size := 2048
    byte := fun k =>
      if k = 12 then 0x02 else if k = 19 then 4 else
      if k = 510 then 0x55 else if k = 511 then 0xaa else
      if k = 512 ∨ k = 1024 ∨ k = 1536 then 0xff else
      if k = 513 ∨ k = 1025 ∨ k = 1537 then 0xd8 else
      if k = 514 ∨ k = 1026 then 0xff else if k = 515 then 0xe0 else if k = 1027 then 0xe1 else
      if k = 517 ∨ k = 1029 then 0x10 else
      if k = 518 then 0x4a else if k = 519 then 0x46 else
      if k = 520 then 0x49 else if k = 521 then 0x46 else
      if k = 1030 then 0x45 else if k = 1031 then 0x78 else
      if k = 1032 then 0x69 else if k = 1033 then 0x66 else 0 }

/-- The image `x` was recorded for a sector that made `find_jpeg_header`
return its type, a value other than 0: the buffer then held sector `x.start`
in front of some older bytes `rest`. -/
def detected_at (dev : Device) (ss : Nat) (x : image) : Prop :=
  ∃ rest : Buf, x.type = jpeg_header (sector_bytes dev ss x.start.toNat ++ rest) ∧ x.type ≠ 0

/-! # Properties -/

/-! ## Arithmetic -/

theorem wrap32_of_lt {x : Int} (h0 : 0 ≤ x) (h1 : x < 2147483648) : wrap32 x = x := by
  unfold wrap32; omega

theorem wrap32_neg {x : Int} (h0 : 2147483648 ≤ x) (h1 : x < 4294967296) : wrap32 x < 0 := by
  unfold wrap32; omega

theorem wrap32_range (x : Int) : -2147483648 ≤ wrap32 x ∧ wrap32 x < 2147483648 := by
  unfold wrap32; omega

/-! ## read_sector -/

theorem device_read_length (dev : Device) (off count : Nat) :
    (device_read dev off count).length = min count (dev.size - off) := by
  simp [device_read]

theorem device_read_full (dev : Device) (ss n : Nat) (h : ss * n + ss ≤ dev.size) :
    device_read dev (ss * n) ss = sector_bytes dev ss n := by
  have : min ss (dev.size - ss * n) = ss := by omega
  simp [device_read, sector_bytes, this]

theorem sector_bytes_length (dev : Device) (ss n : Nat) :
    (sector_bytes dev ss n).length = ss := by
  simp [sector_bytes]

theorem wrap32_natCast_of_lt (m : Nat) (h : m < 2147483648) : wrap32 (m : Int) = (m : Int) :=
  wrap32_of_lt (by omega) (by omega)

theorem wrap32_natCast_neg (m : Nat) (h0 : 2147483648 ≤ m) (h1 : m < 4294967296) :
    wrap32 (m : Int) < 0 :=
  wrap32_neg (by omega) (by omega)

theorem read_sector_unfold (dev : Device) (bs : bootsector) (buf : Buf) (ss n m : Nat)
    (hs : bs.sector_size = (ss : Int)) (hm : m = ss * n) :
    read_sector dev bs buf (n : Int) =
      if wrap32 (m : Int) < 0 then .error .seek_failed
      else if 4096 < (device_read dev (wrap32 (m : Int)).toNat ss).length then
        .error .undefined_read
      else if (device_read dev (wrap32 (m : Int)).toNat ss).length < ss then
        .error .read_failed
      else .ok (device_read dev (wrap32 (m : Int)).toNat ss
        ++ buf.drop (device_read dev (wrap32 (m : Int)).toNat ss).length) := by
  subst hm
  have hneg : ¬ ((ss : Int) < 0) := by omega
  unfold read_sector
  rw [hs]
  simp only [Int.toNat_ofNat, Nat.cast_mul, Nat.cast_lt, if_neg hneg]

/-- A sector that lies on the device and below the `int` range is read whole
into the front of the buffer. -/
theorem read_sector_of_ok (dev : Device) (bs : bootsector) (buf : Buf) (ss n : Nat)
    (hs : bs.sector_size = (ss : Int)) (hss : ss ≤ 4096) (hok : sector_ok dev ss n) :
    read_sector dev bs buf (n : Int) = .ok (sector_bytes dev ss n ++ buf.drop ss) := by
  obtain ⟨h1, h2⟩ := hok
  obtain ⟨m, hm⟩ : ∃ m, m = ss * n := ⟨_, rfl⟩
  have hfull := device_read_full dev ss n h2
  rw [← hm] at h1 hfull
  have hlen : (sector_bytes dev ss n).length = ss := sector_bytes_length dev ss n
  have hnot : ¬ (wrap32 (m : Int) < 0) := by rw [wrap32_natCast_of_lt _ h1]; omega
  rw [read_sector_unfold dev bs buf ss n m hs hm, if_neg hnot,
    wrap32_natCast_of_lt _ h1, Int.toNat_ofNat, hfull, hlen, if_neg (Nat.not_lt.mpr hss),
    if_neg (lt_irrefl ss)]

/-- When `read_sector` returns, the sector lies on the device and its offset
did not leave the `int` range, provided the product stays below `2^32`. -/
theorem read_sector_ok_inv (dev : Device) (bs : bootsector) (buf b : Buf) (ss n : Nat)
    (hs : bs.sector_size = (ss : Int)) (hlt : ss * n < 4294967296)
    (h : read_sector dev bs buf (n : Int) = .ok b) : sector_ok dev ss n := by
  obtain ⟨m, hm⟩ : ∃ m, m = ss * n := ⟨_, rfl⟩
  rw [read_sector_unfold dev bs buf ss n m hs hm] at h
  unfold sector_ok
  rw [← hm] at hlt ⊢
  by_cases hbig : m < 2147483648
  · have hnot : ¬ (wrap32 (m : Int) < 0) := by rw [wrap32_natCast_of_lt _ hbig]; omega
    rw [if_neg hnot, wrap32_natCast_of_lt _ hbig, Int.toNat_ofNat, device_read_length] at h
    refine ⟨hbig, ?_⟩
    by_contra hc
    have : min ss (dev.size - m) < ss := by
      rcases Nat.eq_zero_or_pos ss with h0 | h0
      · subst h0; simp at hm; omega
      · omega
    rw [if_pos this] at h
    split at h <;> cases h
  · have hneg := wrap32_natCast_neg m (by omega) hlt
    rw [if_pos hneg] at h
    cases h

/-- When `read_sector` returns, the sector size is between 0 and the size of
the buffer. -/
theorem read_sector_ok_bounds (dev : Device) (bs : bootsector) (buf b : Buf) (n : Int)
    (h : read_sector dev bs buf n = .ok b) :
    0 ≤ bs.sector_size ∧ bs.sector_size ≤ 4096 := by
  unfold read_sector at h
  simp only at h
  split at h
  · cases h
  · split at h
    · cases h
    · split at h
      · cases h
      · split at h
        · cases h
        · omega

/-! ## find_images -/

theorem find_images_loop_succ (dev : Device) (bs : bootsector) (count : Nat) (i : Int)
    (buf : Buf) (l : List image) :
    find_images_loop dev bs (count + 1) i buf l =
      match read_sector dev bs buf i with
      | .error e => .error e
      | .ok buf1 =>
        find_images_loop dev bs count (i + 1) buf1
          (if jpeg_header buf1 ≠ 0 then
            l ++ [{ id := (l.length : Int), start := i, type := jpeg_header buf1 }]
          else l) := by
  rw [find_images_loop, find_jpeg_header]
  cases read_sector dev bs buf i with
  | error e => rfl
  | ok buf1 =>
    simp only
    split <;> rfl

theorem scan_inv_mono {lo hi hi' : Int} {l : List image} (h : scan_inv lo hi l)
    (hh : hi ≤ hi') : scan_inv lo hi' l :=
  ⟨h.1, h.2.1, fun x hx => ⟨(h.2.2 x hx).1, lt_of_lt_of_le (h.2.2 x hx).2 hh⟩⟩

theorem scan_inv_snoc {lo i : Int} {l : List image} (h : scan_inv lo i l) (hlo : lo ≤ i)
    (t : Int) : scan_inv lo (i + 1) (l ++ [{ id := (l.length : Int), start := i, type := t }]) := by
  refine ⟨?_, ?_, ?_⟩
  · intro k hk
    by_cases hlt : k < l.length
    · rw [List.getElem_append_left hlt]; exact h.1 k hlt
    · have hk' : k = l.length := by
        simp at hk; omega
      subst hk'
      simp
  · rw [List.pairwise_append]
    refine ⟨h.2.1, List.pairwise_singleton _ _, ?_⟩
    intro a ha b hb
    simp at hb
    subst hb
    exact (h.2.2 a ha).2
  · intro x hx
    rw [List.mem_append] at hx
    rcases hx with hx | hx
    · exact ⟨(h.2.2 x hx).1, by have := (h.2.2 x hx).2; omega⟩
    · simp at hx
      subst hx
      exact ⟨hlo, by simp⟩

/-- The scan keeps the list invariant, whatever the sector size. -/
theorem find_images_loop_inv (dev : Device) (bs : bootsector) (lo : Int) :
    ∀ (count : Nat) (i : Int) (buf : Buf) (l : List image) (b : Buf) (l' : List image),
      find_images_loop dev bs count i buf l = .ok (b, l') → lo ≤ i → scan_inv lo i l →
      scan_inv lo (i + count) l' := by
  intro count
  induction count with
  | zero =>
    intro i buf l b l' h _ hinv
    simp [find_images_loop] at h
    obtain ⟨-, rfl⟩ := h
    simpa using hinv
  | succ count ih =>
    intro i buf l b l' h hlo hinv
    rw [find_images_loop_succ] at h
    have hcast : i + ((count + 1 : Nat) : Int) = (i + 1) + (count : Int) := by push_cast; ring
    rw [hcast]
    cases hr : read_sector dev bs buf i with
    | error e => rw [hr] at h; cases h
    | ok buf1 =>
      rw [hr] at h
      simp only at h
      refine ih (i + 1) buf1 _ b l' h (by omega) ?_
      split
      · exact scan_inv_snoc hinv hlo _
      · exact scan_inv_mono hinv (by omega)

/-- When the scan returns, every sector it visited lies on the device and was
addressed without leaving the `int` range. -/
theorem find_images_loop_sectors (dev : Device) (bs : bootsector) (ss : Nat)
    (hs : bs.sector_size = (ss : Int)) (hss : ss ≤ 4096) :
    ∀ (count a : Nat) (buf : Buf) (l : List image) (b : Buf) (l' : List image),
      find_images_loop dev bs count (a : Int) buf l = .ok (b, l') → ss * a < 4294967296 →
      ∀ j, a ≤ j → j < a + count → sector_ok dev ss j := by
  intro count
  induction count with
  | zero => intro a buf l b l' _ _ j h1 h2; omega
  | succ count ih =>
    intro a buf l b l' h hlt j h1 h2
    rw [find_images_loop_succ] at h
    cases hr : read_sector dev bs buf (a : Int) with
    | error e => rw [hr] at h; cases h
    | ok buf1 =>
      rw [hr] at h
      simp only at h
      have hok := read_sector_ok_inv dev bs buf buf1 ss a hs hlt hr
      rcases Nat.eq_or_lt_of_le h1 with heq | hgt
      · subst heq; exact hok
      · have hcast : ((a : Int) + 1) = ((a + 1 : Nat) : Int) := by push_cast; rfl
        rw [hcast] at h
        have hnext : ss * (a + 1) < 4294967296 := by
          have := hok.1
          rw [Nat.mul_succ]; omega
        exact ih (a + 1) buf1 _ b l' h hnext j (by omega) (by omega)

set_option maxRecDepth 100000 in
/-- The scan of `tiny_dev` finds the two images and leaves the last sector in
the buffer. -/
theorem tiny_scan :
    find_images tiny_dev tiny_bs [] = .ok (sector_bytes tiny_dev 512 7, tiny_images) := by
  decide

/-- C4: in the list `find_images` returns, the image at position `k` has id
`k`, start sectors increase strictly with the position, and every start
sector lies in `1 .. sectors_total-1`. -/
theorem find_images_ids_and_starts (dev : Device) (bs : bootsector) (buf buf' : Buf)
    (il : List image) (h : find_images dev bs buf = .ok (buf', il)) :
    (∀ k (hk : k < il.length), (il.get ⟨k, hk⟩).id = (k : Int)) ∧
    (∀ j k (hjk : j < k) (hk : k < il.length),
      (il.get ⟨j, lt_trans hjk hk⟩).start < (il.get ⟨k, hk⟩).start) ∧
    (∀ k (hk : k < il.length),
      1 ≤ (il.get ⟨k, hk⟩).start ∧ (il.get ⟨k, hk⟩).start ≤ bs.sectors_total - 1) := by
  have hinv := find_images_loop_inv dev bs 1 _ 1 buf [] buf' il h (le_refl 1)
    ⟨fun k hk => by simp at hk, List.Pairwise.nil, fun x hx => by simp at hx⟩
  refine ⟨fun k hk => hinv.1 k hk, ?_, ?_⟩
  · intro j k hjk hk
    exact List.pairwise_iff_get.mp hinv.2.1 ⟨j, lt_trans hjk hk⟩ ⟨k, hk⟩ hjk
  · intro k hk
    have hx := hinv.2.2 _ (List.get_mem il k hk)
    refine ⟨hx.1, ?_⟩
    have := hx.2
    omega

theorem find_images_ids_and_starts_witness :
    find_images tiny_dev tiny_bs [] = .ok (sector_bytes tiny_dev 512 7, tiny_images) ∧
    ((∀ k (hk : k < tiny_images.length), (tiny_images.get ⟨k, hk⟩).id = (k : Int)) ∧
    (∀ j k (hjk : j < k) (hk : k < tiny_images.length),
      (tiny_images.get ⟨j, lt_trans hjk hk⟩).start < (tiny_images.get ⟨k, hk⟩).start) ∧
    (∀ k (hk : k < tiny_images.length),
      1 ≤ (tiny_images.get ⟨k, hk⟩).start ∧
      (tiny_images.get ⟨k, hk⟩).start ≤ tiny_bs.sectors_total - 1)) :=
  ⟨tiny_scan, find_images_ids_and_starts tiny_dev tiny_bs [] (sector_bytes tiny_dev 512 7)
    tiny_images tiny_scan⟩

/-! ## sect_list -/

/-- What the marking loop of `sect_list` leaves in the array when the start
sectors increase strictly and are indices of the array: the array keeps its
length, the start sector of the image at position `k` holds `i + k` reduced to
an `unsigned short`, and every other entry is unchanged. -/
theorem sect_list_fill_spec :
    ∀ (il : List image) (i : Int) (s : List Nat),
      il.Pairwise (fun a b => a.start < b.start) →
      (∀ x ∈ il, 0 ≤ x.start ∧ x.start < (s.length : Int)) →
      ∃ s', sect_list_fill il i s = some s' ∧ s'.length = s.length ∧
        (∀ k (hk : k < il.length),
          s'[(il.get ⟨k, hk⟩).start.toNat]? = some (wrap_u16 (i + k))) ∧
        (∀ p : Nat, (∀ x ∈ il, x.start ≠ (p : Int)) → s'[p]? = s[p]?) := by
  intro il
  induction il with
  | nil =>
    intro i s _ _
    exact ⟨s, rfl, rfl, fun k hk => by simp at hk, fun p _ => rfl⟩
  | cons img rest ih =>
    intro i s hpw hin
    have himg := hin img (List.mem_cons_self _ _)
    rw [List.pairwise_cons] at hpw
    have hin' : ∀ x ∈ rest,
        0 ≤ x.start ∧ x.start < ((s.set img.start.toNat (wrap_u16 i)).length : Int) := by
      intro x hx
      rw [List.length_set]
      exact hin x (List.mem_cons_of_mem _ hx)
    obtain ⟨s', h1, h2, h3, h4⟩ := ih (i + 1) (s.set img.start.toNat (wrap_u16 i)) hpw.2 hin'
    refine ⟨s', ?_, ?_, ?_, ?_⟩
    · rw [sect_list_fill, if_pos himg]; exact h1
    · rw [h2, List.length_set]
    · intro k hk
      cases k with
      | zero =>
        have hne : ∀ x ∈ rest, x.start ≠ ((img.start.toNat : Nat) : Int) := by
          intro x hx
          have := hpw.1 x hx
          omega
        have hlt : img.start.toNat < s.length := by omega
        simp only [List.get_eq_getElem, List.getElem_cons_zero]
        rw [h4 _ hne, List.getElem?_set_self hlt]
        simp
      | succ k =>
        have := h3 k (by simpa using hk)
        simp only [List.get_eq_getElem, List.getElem_cons_succ] at this ⊢
        rw [this]
        congr 2
        push_cast
        ring
    · intro p hp
      have hne : ∀ x ∈ rest, x.start ≠ (p : Int) :=
        fun x hx => hp x (List.mem_cons_of_mem _ hx)
      have hp0 := hp img (List.mem_cons_self _ _)
      rw [h4 p hne, List.getElem?_set_ne]
      omega

/-- Each store of the marking loop that replaces `0xffff` by another value
adds one to the number of entries that are not `0xffff`. -/
theorem sect_list_fill_count :
    ∀ (il : List image) (i : Int) (s s' : List Nat),
      il.Pairwise (fun a b => a.start < b.start) →
      (∀ x ∈ il, 0 ≤ x.start ∧ s[x.start.toNat]? = some 0xffff) →
      (∀ k : Nat, k < il.length → wrap_u16 (i + k) ≠ 0xffff) →
      sect_list_fill il i s = some s' →
      s'.countP (fun e => e != 0xffff) = s.countP (fun e => e != 0xffff) + il.length := by
  intro il
  induction il with
  | nil =>
    intro i s s' _ _ _ h
    simp [sect_list_fill] at h
    subst h
    simp
  | cons img rest ih =>
    intro i s s' hpw hin hval h
    rw [List.pairwise_cons] at hpw
    have himg := hin img (List.mem_cons_self _ _)
    have hlt : img.start.toNat < s.length := by
      by_contra hc
      have := List.getElem?_eq_none (Nat.le_of_not_lt hc)
      rw [this] at himg
      exact absurd himg.2 (by simp)
    have hget : s[img.start.toNat] = 0xffff := by
      have := himg.2
      rw [List.getElem?_eq_getElem hlt] at this
      exact Option.some.inj this
    rw [sect_list_fill] at h
    split at h
    · have hin' : ∀ x ∈ rest,
          0 ≤ x.start ∧ (s.set img.start.toNat (wrap_u16 i))[x.start.toNat]? = some 0xffff := by
        intro x hx
        have hx' := hin x (List.mem_cons_of_mem _ hx)
        refine ⟨hx'.1, ?_⟩
        rw [List.getElem?_set_ne]
        · exact hx'.2
        · have := hpw.1 x hx
          omega
      have hval' : ∀ k : Nat, k < rest.length → wrap_u16 (i + 1 + k) ≠ 0xffff := by
        intro k hk
        have := hval (k + 1) (by simpa using hk)
        have he : i + ((k + 1 : Nat) : Int) = i + 1 + (k : Int) := by push_cast; ring
        rwa [he] at this
      have h0 : wrap_u16 i ≠ 0xffff := by
        have := hval 0 (by simp)
        simpa using this
      rw [ih (i + 1) _ s' hpw.2 hin' hval' h, List.countP_set _ _ _ _ hlt, hget]
      simp [h0]
      omega
    · cases h

theorem wrap_u16_of_lt (k : Nat) (h : k < 65536) : wrap_u16 (k : Int) = k := by
  unfold wrap_u16; omega

/-- C5 (amended): for at most 65535 images with strictly increasing start
sectors below `sectors_total`, `sect_list` returns an array of `sectors_total`
entries in which the start sector of image `k` holds `k`, every other entry
holds `0xffff`, and exactly as many entries as there are images differ from
`0xffff`. -/
theorem sect_list_marks_starts (bs : bootsector) (il : List image)
    (hN : il.length ≤ 65535)
    (hpw : il.Pairwise (fun a b => a.start < b.start))
    (hin : ∀ x ∈ il, 0 ≤ x.start ∧ x.start < bs.sectors_total) :
    ∃ sl, sect_list bs il = some sl ∧ sl.length = bs.sectors_total.toNat ∧
      (∀ k (hk : k < il.length), sl[(il.get ⟨k, hk⟩).start.toNat]? = some k) ∧
      (∀ p : Nat, p < sl.length → (∀ x ∈ il, x.start ≠ (p : Int)) → sl[p]? = some 0xffff) ∧
      sl.countP (fun e => e != 0xffff) = il.length := by
  have hin' : ∀ x ∈ il, 0 ≤ x.start ∧
      x.start < ((List.replicate bs.sectors_total.toNat 0xffff).length : Int) := by
    intro x hx
    have := hin x hx
    rw [List.length_replicate]
    omega
  obtain ⟨sl, h1, h2, h3, h4⟩ :=
    sect_list_fill_spec il 0 (List.replicate bs.sectors_total.toNat 0xffff) hpw hin'
  rw [List.length_replicate] at h2
  refine ⟨sl, h1, h2, ?_, ?_, ?_⟩
  · intro k hk
    rw [h3 k hk, zero_add, wrap_u16_of_lt k (by omega)]
  · intro p hp hx
    rw [h4 p hx, List.getElem?_replicate, if_pos (by omega)]
  · have hfresh : ∀ x ∈ il, 0 ≤ x.start ∧
        (List.replicate bs.sectors_total.toNat 0xffff)[x.start.toNat]? = some 0xffff := by
      intro x hx
      have := hin x hx
      refine ⟨this.1, ?_⟩
      rw [List.getElem?_replicate, if_pos (by omega)]
    have hval : ∀ k : Nat, k < il.length → wrap_u16 ((0 : Int) + k) ≠ 0xffff := by
      intro k hk
      rw [zero_add, wrap_u16_of_lt k (by omega)]
      omega
    rw [sect_list_fill_count il 0 _ sl hpw hfresh hval h1]
    simp

theorem sect_list_marks_starts_witness :
    tiny_images.length ≤ 65535 ∧
    tiny_images.Pairwise (fun a b => a.start < b.start) ∧
    (∀ x ∈ tiny_images, 0 ≤ x.start ∧ x.start < tiny_bs.sectors_total) ∧
    ∃ sl, sect_list tiny_bs tiny_images = some sl ∧ sl.length = tiny_bs.sectors_total.toNat ∧
      (∀ k (hk : k < tiny_images.length), sl[(tiny_images.get ⟨k, hk⟩).start.toNat]? = some k) ∧
      (∀ p : Nat, p < sl.length → (∀ x ∈ tiny_images, x.start ≠ (p : Int)) →
        sl[p]? = some 0xffff) ∧
      sl.countP (fun e => e != 0xffff) = tiny_images.length :=
  ⟨by decide, by decide, by decide,
    sect_list_marks_starts tiny_bs tiny_images (by decide) (by decide) (by decide)⟩

theorem big_images_length : big_images.length = 65537 := by
  simp [big_images]

theorem big_images_get (k : Nat) (hk : k < big_images.length) :
    big_images.get ⟨k, hk⟩ = marker_image 0 1 k := by
  simp [big_images]

theorem big_images_start (k : Nat) (hk : k < big_images.length) :
    (big_images.get ⟨k, hk⟩).start = (k : Int) + 1 := by
  rw [big_images_get]
  simp only [marker_image]
  omega

theorem big_images_pairwise : big_images.Pairwise (fun a b => a.start < b.start) := by
  unfold big_images
  rw [List.pairwise_map]
  refine (List.pairwise_lt_range 65537).imp ?_
  intro a b hab
  simp only [marker_image]
  omega

theorem big_images_range : ∀ x ∈ big_images, 1 ≤ x.start ∧ x.start < big_bs.sectors_total := by
  intro x hx
  simp only [big_images, List.mem_map, List.mem_range] at hx
  obtain ⟨k, hk, rfl⟩ := hx
  simp only [big_bs, resolved_bs, marker_image]
  omega

/-- C5 fails beyond 65535 images: with 65537 images at the sectors 1 .. 65537
of a 65538-sector geometry, the start sector of image 65536 holds 0, and the
start sector of image 65535 holds the value `0xffff` of an unmarked entry. -/
theorem sect_list_truncates_image_number :
    big_images.Pairwise (fun a b => a.start < b.start) ∧
    (∀ x ∈ big_images, 0 ≤ x.start ∧ x.start < big_bs.sectors_total) ∧
    ∃ (h5 : 65535 < big_images.length) (h6 : 65536 < big_images.length) (sl : List Nat),
      sect_list big_bs big_images = some sl ∧
      sl[(big_images.get ⟨65536, h6⟩).start.toNat]? = some 0 ∧
      sl[(big_images.get ⟨65535, h5⟩).start.toNat]? = some 0xffff := by
  refine ⟨big_images_pairwise, fun x hx => ⟨by have := (big_images_range x hx).1; omega,
    (big_images_range x hx).2⟩, by rw [big_images_length]; omega,
    by rw [big_images_length]; omega, ?_⟩
  have hin' : ∀ x ∈ big_images, 0 ≤ x.start ∧
      x.start < ((List.replicate big_bs.sectors_total.toNat 0xffff).length : Int) := by
    intro x hx
    have := big_images_range x hx
    rw [List.length_replicate]
    omega
  obtain ⟨sl, h1, -, h3, -⟩ :=
    sect_list_fill_spec big_images 0 (List.replicate big_bs.sectors_total.toNat 0xffff)
      big_images_pairwise hin'
  refine ⟨sl, h1, ?_, ?_⟩
  · rw [h3 65536]; rfl
  · rw [h3 65535]; rfl

/-! ## The carve loop -/

theorem sl_at_natCast (sl : List Nat) (j : Nat) : sl_at sl (j : Int) = sl[j]? := by
  simp [sl_at]

/-- One round of the `while` loop on a sector that belongs to the image and
lies on the device. -/
theorem carve_loop_step (dev : Device) (bs : bootsector) (sl : List Nat) (i : Int) (ss : Nat)
    (hs : bs.sector_size = (ss : Int)) (hss : ss ≤ 4096) (fuel a : Nat) (n : Int) (buf : Buf) (out : List Nat)
    (nr : Nat) (hnr : sl[a]? = some nr) (hown : nr = 0xffff ∨ (nr : Int) = i)
    (hok : sector_ok dev ss a) :
    carve_loop dev bs sl i (fuel + 1) (a : Int) n buf out =
      carve_loop dev bs sl i fuel ((a + 1 : Nat) : Int) (n + 1)
        (sector_bytes dev ss a ++ buf.drop ss) (out ++ sector_bytes dev ss a) := by
  rw [carve_loop, sl_at_natCast, hnr]
  simp only [if_pos hown, read_sector_of_ok dev bs buf ss a hs hss hok, hs, Int.toNat_ofNat]
  have ht : (sector_bytes dev ss a ++ buf.drop ss).take ss = sector_bytes dev ss a := by
    rw [List.take_left' (sector_bytes_length dev ss a)]
  rw [ht]
  rfl

/-- The `while` loop runs through `m` consecutive sectors that belong to the
image and lie on the device, writing them in order. -/
theorem carve_loop_run (dev : Device) (bs : bootsector) (sl : List Nat) (i : Int) (ss : Nat)
    (hs : bs.sector_size = (ss : Int)) (hss : ss ≤ 4096) :
    ∀ (m fuel a : Nat) (n : Int) (buf : Buf) (out : List Nat),
      (∀ j, a ≤ j → j < a + m →
        sector_ok dev ss j ∧ ∃ nr, sl[j]? = some nr ∧ (nr = 0xffff ∨ (nr : Int) = i)) →
      ∃ buf', carve_loop dev bs sl i (fuel + m) (a : Int) n buf out =
        carve_loop dev bs sl i fuel ((a + m : Nat) : Int) (n + m) buf'
          (out ++ sector_run dev ss a m) := by
  intro m
  induction m with
  | zero =>
    intro fuel a n buf out _
    exact ⟨buf, by simp [sector_run]⟩
  | succ m ih =>
    intro fuel a n buf out h
    obtain ⟨hok, nr, hnr, hown⟩ := h a (le_refl a) (by omega)
    obtain ⟨buf', hb⟩ := ih fuel (a + 1) (n + 1) (sector_bytes dev ss a ++ buf.drop ss)
      (out ++ sector_bytes dev ss a) (fun j h1 h2 => h j (by omega) (by omega))
    refine ⟨buf', ?_⟩
    have hf : fuel + (m + 1) = (fuel + m) + 1 := by omega
    rw [hf, carve_loop_step dev bs sl i ss hs hss (fuel + m) a n buf out nr hnr hown hok, hb]
    have e1 : a + 1 + m = a + (m + 1) := by omega
    have e2 : n + 1 + (m : Int) = n + ((m + 1 : Nat) : Int) := by push_cast; ring
    rw [e1, e2, sector_run, List.append_assoc]

/-- The `while` loop ends when it meets the number of another image. -/
theorem carve_loop_stop (dev : Device) (bs : bootsector) (sl : List Nat) (i : Int)
    (fuel a : Nat) (n : Int) (buf : Buf) (out : List Nat) (nr : Nat)
    (hnr : sl[a]? = some nr) (h1 : nr ≠ 0xffff) (h2 : (nr : Int) ≠ i) :
    carve_loop dev bs sl i (fuel + 1) (a : Int) n buf out = ⟨out, n, (a : Int), buf, .stopped⟩ := by
  rw [carve_loop, sl_at_natCast, hnr]
  simp only
  rw [if_neg (by rintro (h | h); exact h1 h; exact h2 h)]

/-- The `while` loop reads beyond the array when `sect` reaches its length. -/
theorem carve_loop_overrun (dev : Device) (bs : bootsector) (sl : List Nat) (i : Int)
    (fuel a : Nat) (n : Int) (buf : Buf) (out : List Nat) (ha : sl.length ≤ a) :
    carve_loop dev bs sl i (fuel + 1) (a : Int) n buf out =
      ⟨out, n, (a : Int), buf, .map_overrun⟩ := by
  rw [carve_loop, sl_at_natCast, List.getElem?_eq_none ha]

/-! ## Scan, map and carve loop together -/

theorem starts_lt_of_lt {il : List image} (hpw : il.Pairwise (fun a b => a.start < b.start))
    {j k : Nat} (hj : j < il.length) (hk : k < il.length) (hjk : j < k) :
    (il.get ⟨j, hj⟩).start < (il.get ⟨k, hk⟩).start :=
  List.pairwise_iff_get.mp hpw ⟨j, hj⟩ ⟨k, hk⟩ hjk

theorem starts_le_of_le {il : List image} (hpw : il.Pairwise (fun a b => a.start < b.start))
    {j k : Nat} (hj : j < il.length) (hk : k < il.length) (hjk : j ≤ k) :
    (il.get ⟨j, hj⟩).start ≤ (il.get ⟨k, hk⟩).start := by
  rcases Nat.eq_or_lt_of_le hjk with h | h
  · subst h; exact le_refl _
  · exact le_of_lt (starts_lt_of_lt hpw hj hk h)

/-- No image starts strictly between the start sectors of two neighbours of
the list. -/
theorem no_start_between {il : List image} (hpw : il.Pairwise (fun a b => a.start < b.start))
    {i : Nat} (hi : i < il.length) (p : Int) (h1 : (il.get ⟨i, hi⟩).start < p)
    (h2 : ∀ (h : i + 1 < il.length), p < (il.get ⟨i + 1, h⟩).start) :
    ∀ x ∈ il, x.start ≠ p := by
  intro x hx hxp
  obtain ⟨⟨k, hk⟩, rfl⟩ := List.mem_iff_get.mp hx
  by_cases hki : k ≤ i
  · have := starts_le_of_le hpw hk hi hki
    omega
  · have hi1 : i + 1 < il.length := by omega
    have := starts_le_of_le hpw hi1 hk (by omega)
    have := h2 hi1
    omega

/-- What the scan and `sect_list` establish together, for a sector size that
fits the buffer: the list invariant, every sector from 1 on readable, and the
contents of the map. -/
theorem scan_and_map_facts (dev : Device) (bs : bootsector) (ss : Nat) (buf0 buf1 : Buf)
    (il : List image) (sl : List Nat)
    (hs : bs.sector_size = (ss : Int)) (hss : ss ≤ 4096)
    (hscan : find_images dev bs buf0 = .ok (buf1, il)) (hsl : sect_list bs il = some sl) :
    il.Pairwise (fun a b => a.start < b.start) ∧
    (∀ x ∈ il, 1 ≤ x.start ∧ x.start < bs.sectors_total) ∧
    (∀ j : Nat, 1 ≤ j → (j : Int) < bs.sectors_total → sector_ok dev ss j) ∧
    sl.length = bs.sectors_total.toNat ∧
    (∀ k (hk : k < il.length), sl[(il.get ⟨k, hk⟩).start.toNat]? = some (wrap_u16 k)) ∧
    (∀ p : Nat, p < sl.length → (∀ x ∈ il, x.start ≠ (p : Int)) → sl[p]? = some 0xffff) := by
  have hinv := find_images_loop_inv dev bs 1 _ 1 buf0 [] buf1 il hscan (le_refl 1)
    ⟨fun k hk => by simp at hk, List.Pairwise.nil, fun x hx => by simp at hx⟩
  have hrange : ∀ x ∈ il, 1 ≤ x.start ∧ x.start < bs.sectors_total := by
    intro x hx
    have := hinv.2.2 x hx
    omega
  have hsec : ∀ j : Nat, 1 ≤ j → (j : Int) < bs.sectors_total → sector_ok dev ss j := by
    intro j h1 h2
    have h := find_images_loop_sectors dev bs ss hs hss (bs.sectors_total - 1).toNat 1 buf0 []
      buf1 il (by simpa [find_images] using hscan) (by omega) j h1 (by omega)
    exact h
  have hin' : ∀ x ∈ il, 0 ≤ x.start ∧
      x.start < ((List.replicate bs.sectors_total.toNat 0xffff).length : Int) := by
    intro x hx
    have := hrange x hx
    rw [List.length_replicate]
    omega
  obtain ⟨sl', h1, h2, h3, h4⟩ :=
    sect_list_fill_spec il 0 (List.replicate bs.sectors_total.toNat 0xffff) hinv.2.1 hin'
  have hsl' : sl' = sl := by
    unfold sect_list at hsl
    rw [h1] at hsl
    exact Option.some.inj hsl
  subst hsl'
  rw [List.length_replicate] at h2
  refine ⟨hinv.2.1, hrange, hsec, h2, ?_, ?_⟩
  · intro k hk
    rw [h3 k hk, zero_add]
  · intro p hp hx
    rw [h4 p hx, List.getElem?_replicate, if_pos (by omega)]

/-- A scan that returned at least one image read at least one sector, so the
sector size is between 0 and the size of the buffer. -/
theorem scan_sector_size_bounds (dev : Device) (bs : bootsector) (buf0 buf1 : Buf)
    (il : List image) (hscan : find_images dev bs buf0 = .ok (buf1, il)) (hne : il ≠ []) :
    0 ≤ bs.sector_size ∧ bs.sector_size ≤ 4096 := by
  unfold find_images at hscan
  cases hc : (bs.sectors_total - 1).toNat with
  | zero =>
    rw [hc] at hscan
    simp only [find_images_loop, Except.ok.injEq, Prod.mk.injEq] at hscan
    exact absurd hscan.2.symm hne
  | succ count =>
    rw [hc, find_images_loop_succ] at hscan
    cases hr : read_sector dev bs buf0 1 with
    | error e => rw [hr] at hscan; cases hscan
    | ok b => exact read_sector_ok_bounds dev bs buf0 b 1 hr

/-- After a scan that returned, every start sector is an index of the array,
so `sect_list` stores within bounds. -/
theorem sect_list_after_scan (dev : Device) (bs : bootsector) (buf0 buf1 : Buf)
    (il : List image) (hscan : find_images dev bs buf0 = .ok (buf1, il)) :
    ∃ sl, sect_list bs il = some sl := by
  have hinv := find_images_loop_inv dev bs 1 _ 1 buf0 [] buf1 il hscan (le_refl 1)
    ⟨fun k hk => by simp at hk, List.Pairwise.nil, fun x hx => by simp at hx⟩
  have hin' : ∀ x ∈ il, 0 ≤ x.start ∧
      x.start < ((List.replicate bs.sectors_total.toNat 0xffff).length : Int) := by
    intro x hx
    have := hinv.2.2 x hx
    rw [List.length_replicate]
    omega
  obtain ⟨sl, h1, -⟩ :=
    sect_list_fill_spec il 0 (List.replicate bs.sectors_total.toNat 0xffff) hinv.2.1 hin'
  exact ⟨sl, h1⟩

/-- The `while` loop of image `i` writes every sector from the image's start
up to `e`, when `e` is at most the next image's start and at most the sector
count. -/
theorem carve_loop_own_run (dev : Device) (bs : bootsector) (ss : Nat) (buf0 buf1 : Buf)
    (il : List image) (sl : List Nat)
    (hs : bs.sector_size = (ss : Int)) (hss : ss ≤ 4096)
    (hscan : find_images dev bs buf0 = .ok (buf1, il)) (hsl : sect_list bs il = some sl)
    (i : Nat) (hi : i < il.length) (hi16 : i ≤ 65535) (e : Nat)
    (he1 : (e : Int) ≤ bs.sectors_total)
    (he2 : ∀ (h : i + 1 < il.length), (e : Int) ≤ (il.get ⟨i + 1, h⟩).start)
    (fuel : Nat) (n : Int) (buf : Buf) (out : List Nat) :
    ∃ buf', carve_loop dev bs sl (i : Int)
        (fuel + (e - (il.get ⟨i, hi⟩).start.toNat)) (il.get ⟨i, hi⟩).start n buf out =
      carve_loop dev bs sl (i : Int) fuel
        (((il.get ⟨i, hi⟩).start.toNat + (e - (il.get ⟨i, hi⟩).start.toNat) : Nat) : Int)
        (n + ((e - (il.get ⟨i, hi⟩).start.toNat : Nat) : Int)) buf'
        (out ++ sector_run dev ss (il.get ⟨i, hi⟩).start.toNat
          (e - (il.get ⟨i, hi⟩).start.toNat)) := by
  obtain ⟨hpw, hrange, hsec, hlen, hmark, hfree⟩ :=
    scan_and_map_facts dev bs ss buf0 buf1 il sl hs hss hscan hsl
  have hsti := hrange _ (List.get_mem il i hi)
  obtain ⟨a, ha⟩ : ∃ a : Nat, (il.get ⟨i, hi⟩).start = (a : Int) :=
    ⟨(il.get ⟨i, hi⟩).start.toNat, by omega⟩
  have hmi := hmark i hi
  rw [ha] at hsti hmi ⊢
  simp only [Int.toNat_ofNat] at hmi ⊢
  refine carve_loop_run dev bs sl (i : Int) ss hs hss (e - a) fuel a n buf out ?_
  intro j hj1 hj2
  refine ⟨hsec j (by omega) (by omega), ?_⟩
  rcases Nat.eq_or_lt_of_le hj1 with heq | hlt
  · subst heq
    refine ⟨wrap_u16 i, hmi, Or.inr ?_⟩
    rw [wrap_u16_of_lt i (by omega)]
  · refine ⟨0xffff, ?_, Or.inl rfl⟩
    refine hfree j (by omega) ?_
    refine no_start_between hpw hi (j : Int) (by rw [ha]; omega) ?_
    intro h
    have := he2 h
    omega

/-- The carve loop of an image whose successor in the list has an index below
65535: it writes the sectors from its start up to the successor's start and
ends on the loop condition. -/
theorem carve_image_before_next (dev : Device) (bs : bootsector) (ss : Nat) (buf0 buf1 : Buf)
    (il : List image) (sl : List Nat)
    (hs : bs.sector_size = (ss : Int)) (hss : ss ≤ 4096)
    (hscan : find_images dev bs buf0 = .ok (buf1, il)) (hsl : sect_list bs il = some sl)
    (i : Nat) (hi : i + 1 < il.length) (hi16 : i + 1 < 65535) (buf : Buf) :
    ∃ buf', carve_image dev bs sl (i : Int) (il.get ⟨i, Nat.lt_of_succ_lt hi⟩).start buf =
      ⟨sector_run dev ss (il.get ⟨i, Nat.lt_of_succ_lt hi⟩).start.toNat
          ((il.get ⟨i + 1, hi⟩).start - (il.get ⟨i, Nat.lt_of_succ_lt hi⟩).start).toNat,
        (il.get ⟨i + 1, hi⟩).start - (il.get ⟨i, Nat.lt_of_succ_lt hi⟩).start,
        (il.get ⟨i + 1, hi⟩).start, buf', .stopped⟩ := by
  have hi0 : i < il.length := Nat.lt_of_succ_lt hi
  obtain ⟨hpw, hrange, hsec, hlen, hmark, hfree⟩ :=
    scan_and_map_facts dev bs ss buf0 buf1 il sl hs hss hscan hsl
  have hsta := hrange _ (List.get_mem il i hi0)
  have hstb := hrange _ (List.get_mem il (i + 1) hi)
  have hab := starts_lt_of_lt hpw hi0 hi (Nat.lt_succ_self i)
  obtain ⟨b, hb⟩ : ∃ b : Nat, (il.get ⟨i + 1, hi⟩).start = (b : Int) :=
    ⟨(il.get ⟨i + 1, hi⟩).start.toNat, by omega⟩
  obtain ⟨a, ha⟩ : ∃ a : Nat, (il.get ⟨i, hi0⟩).start = (a : Int) :=
    ⟨(il.get ⟨i, hi0⟩).start.toNat, by omega⟩
  obtain ⟨buf', hrun⟩ := carve_loop_own_run dev bs ss buf0 buf1 il sl hs hss hscan hsl i hi0
    (by omega) b (by omega) (fun _ => by omega) (sl.length - (b - a) + 1) 0 buf []
  have hmb := hmark (i + 1) hi
  rw [hb] at hmb hstb hab ⊢
  rw [ha] at hrun hsta hab ⊢
  simp only [Int.toNat_ofNat] at hrun hmb
  have hfuel : sl.length - (b - a) + 1 + (b - a) = sl.length + 1 := by omega
  have hsum : a + (b - a) = b := by omega
  rw [hfuel, hsum] at hrun
  refine ⟨buf', ?_⟩
  unfold carve_image
  rw [hrun, carve_loop_stop dev bs sl (i : Int) _ b _ buf' _ (wrap_u16 ((i + 1 : Nat) : Int)) hmb]
  · have e1 : ((b : Int) - (a : Int)).toNat = b - a := by omega
    have e2 : (0 : Int) + ((b - a : Nat) : Int) = (b : Int) - (a : Int) := by omega
    rw [e1, e2, List.nil_append, Int.toNat_ofNat]
  · rw [wrap_u16_of_lt (i + 1) (by omega)]; omega
  · rw [wrap_u16_of_lt (i + 1) (by omega)]; omega

/-- The carve loop of the last image of the list, for at most 65536 images: it
writes the sectors from its start up to the last sector of the geometry, and
then its loop condition reads the array entry of index `sectors_total`, one
beyond the array. -/
theorem carve_image_last (dev : Device) (bs : bootsector) (ss : Nat) (buf0 buf1 : Buf)
    (il : List image) (sl : List Nat)
    (hs : bs.sector_size = (ss : Int)) (hss : ss ≤ 4096)
    (hscan : find_images dev bs buf0 = .ok (buf1, il)) (hsl : sect_list bs il = some sl)
    (hN : il.length ≤ 65536) (i : Nat) (hi : i < il.length) (hlast : i + 1 = il.length)
    (buf : Buf) :
    ∃ buf', carve_image dev bs sl (i : Int) (il.get ⟨i, hi⟩).start buf =
      ⟨sector_run dev ss (il.get ⟨i, hi⟩).start.toNat
          (bs.sectors_total - (il.get ⟨i, hi⟩).start).toNat,
        bs.sectors_total - (il.get ⟨i, hi⟩).start,
        bs.sectors_total, buf', .map_overrun⟩ := by
  obtain ⟨hpw, hrange, hsec, hlen, hmark, hfree⟩ :=
    scan_and_map_facts dev bs ss buf0 buf1 il sl hs hss hscan hsl
  have hsta := hrange _ (List.get_mem il i hi)
  obtain ⟨a, ha⟩ : ∃ a : Nat, (il.get ⟨i, hi⟩).start = (a : Int) :=
    ⟨(il.get ⟨i, hi⟩).start.toNat, by omega⟩
  obtain ⟨e, he⟩ : ∃ e : Nat, bs.sectors_total = (e : Int) :=
    ⟨bs.sectors_total.toNat, by omega⟩
  obtain ⟨buf', hrun⟩ := carve_loop_own_run dev bs ss buf0 buf1 il sl hs hss hscan hsl i hi
    (by omega) e (by omega) (fun h => by omega) (sl.length - (e - a) + 1) 0 buf []
  rw [ha] at hrun hsta ⊢
  rw [he] at hlen hsta ⊢
  simp only [Int.toNat_ofNat] at hrun hlen
  have hfuel : sl.length - (e - a) + 1 + (e - a) = sl.length + 1 := by omega
  have hsum : a + (e - a) = e := by omega
  rw [hfuel, hsum] at hrun
  refine ⟨buf', ?_⟩
  unfold carve_image
  rw [hrun, carve_loop_overrun dev bs sl (i : Int) _ e _ buf' _ (by omega)]
  have e1 : ((e : Int) - (a : Int)).toNat = e - a := by omega
  have e2 : (0 : Int) + ((e - a : Nat) : Int) = (e : Int) - (a : Int) := by omega
  rw [e1, e2, List.nil_append, Int.toNat_ofNat]

/-- The `for` loop of `main` reaches image `m` when the `while` loops of all
images before it ended on the loop condition; the entry it records for image
`m` is that image's `while` loop, started on some buffer. -/
theorem carve_images_get (dev : Device) (bs : bootsector) (sl : List Nat) :
    ∀ (rest : List image) (base : Nat) (buf : Buf) (m : Nat) (hm : m < rest.length),
      (∀ k (hk : k < rest.length), k < m → ∀ b,
        (carve_image dev bs sl ((base + k : Nat) : Int) (rest.get ⟨k, hk⟩).start b).ending
          = .stopped) →
      ∃ b, (carve_images dev bs sl rest (base : Int) buf)[m]? =
        some (carve_image dev bs sl ((base + m : Nat) : Int) (rest.get ⟨m, hm⟩).start b) := by
  intro rest
  induction rest with
  | nil => intro base buf m hm; simp at hm
  | cons img tl ih =>
    intro base buf m hm hprev
    cases m with
    | zero =>
      refine ⟨buf, ?_⟩
      rw [carve_images]
      split <;> simp
    | succ m =>
      have h0 := hprev 0 (by simp) (by omega) buf
      simp only [List.get_eq_getElem, List.getElem_cons_zero, Nat.add_zero] at h0
      have hm' : m < tl.length := by simpa using hm
      obtain ⟨b, hb⟩ := ih (base + 1)
        (carve_image dev bs sl (base : Int) img.start buf).buf m hm' (by
          intro k hk hkm b
          have := hprev (k + 1) (by simpa using hk) (by omega) b
          simp only [List.get_eq_getElem, List.getElem_cons_succ] at this
          have e : base + 1 + k = base + (k + 1) := by omega
          rw [e]
          exact this)
      refine ⟨b, ?_⟩
      rw [carve_images, if_pos h0, List.getElem?_cons_succ]
      have e1 : ((base : Int) + 1) = ((base + 1 : Nat) : Int) := by push_cast; rfl
      have e2 : base + 1 + m = base + (m + 1) := by omega
      rw [e1, hb, e2]
      simp

/-- C1 (amended): when the scan returns at most 65535 images, the loop of
`main` reaches every image `i` that is not the last one, and the `while` loop
of image `i` ends on its condition after writing exactly
`s(i+1) - s(i)` sectors, the device's sectors `s(i) .. s(i+1)-1` in order. -/
theorem carve_emits_up_to_next_start (dev : Device) (bs : bootsector) (buf0 buf1 : Buf)
    (il : List image)
    (hscan : find_images dev bs buf0 = .ok (buf1, il)) (hN : il.length ≤ 65535)
    (i : Nat) (hi : i + 1 < il.length) :
    ∃ sl r, sect_list bs il = some sl ∧
      (carve_images dev bs sl il 0 buf1)[i]? = some r ∧
      r.ending = .stopped ∧
      r.n = (il.get ⟨i + 1, hi⟩).start - (il.get ⟨i, Nat.lt_of_succ_lt hi⟩).start ∧
      r.out = sector_run dev bs.sector_size.toNat (il.get ⟨i, Nat.lt_of_succ_lt hi⟩).start.toNat
        ((il.get ⟨i + 1, hi⟩).start - (il.get ⟨i, Nat.lt_of_succ_lt hi⟩).start).toNat := by
  obtain ⟨hs0, hs1⟩ := scan_sector_size_bounds dev bs buf0 buf1 il hscan
    (by intro h; rw [h] at hi; simp at hi)
  obtain ⟨ss, hs⟩ : ∃ ss : Nat, bs.sector_size = (ss : Int) :=
    ⟨bs.sector_size.toNat, by omega⟩
  have hss : ss ≤ 4096 := by omega
  obtain ⟨sl, hsl⟩ := sect_list_after_scan dev bs buf0 buf1 il hscan
  have hprev : ∀ k (hk : k < il.length), k < i → ∀ b,
      (carve_image dev bs sl ((0 + k : Nat) : Int) (il.get ⟨k, hk⟩).start b).ending
        = .stopped := by
    intro k hk hki b
    obtain ⟨b', hb'⟩ := carve_image_before_next dev bs ss buf0 buf1 il sl hs hss hscan hsl k
      (by omega) (by omega) b
    rw [Nat.zero_add, hb']
  obtain ⟨b, hb⟩ := carve_images_get dev bs sl il 0 buf1 i (Nat.lt_of_succ_lt hi) hprev
  obtain ⟨b', hb'⟩ := carve_image_before_next dev bs ss buf0 buf1 il sl hs hss hscan hsl i
    hi (by omega) b
  rw [Nat.zero_add, hb'] at hb
  refine ⟨sl, _, hsl, hb, rfl, rfl, ?_⟩
  rw [hs, Int.toNat_ofNat]

theorem carve_emits_up_to_next_start_witness :
    find_images tiny_dev tiny_bs [] = .ok (sector_bytes tiny_dev 512 7, tiny_images) ∧
    tiny_images.length ≤ 65535 ∧
    ∃ (hi : 0 + 1 < tiny_images.length) (sl : List Nat) (r : CarveResult),
      sect_list tiny_bs tiny_images = some sl ∧
      (carve_images tiny_dev tiny_bs sl tiny_images 0 (sector_bytes tiny_dev 512 7))[0]? = some r ∧
      r.ending = .stopped ∧
      r.n = (tiny_images.get ⟨0 + 1, hi⟩).start
        - (tiny_images.get ⟨0, Nat.lt_of_succ_lt hi⟩).start ∧
      r.out = sector_run tiny_dev tiny_bs.sector_size.toNat
        (tiny_images.get ⟨0, Nat.lt_of_succ_lt hi⟩).start.toNat
        ((tiny_images.get ⟨0 + 1, hi⟩).start
          - (tiny_images.get ⟨0, Nat.lt_of_succ_lt hi⟩).start).toNat :=
  ⟨tiny_scan, by decide, by decide,
    carve_emits_up_to_next_start tiny_dev tiny_bs [] (sector_bytes tiny_dev 512 7) tiny_images
      tiny_scan (by decide) 0 (by decide)⟩

/-- For at most 65535 images the loop of `main` reaches the last image, whose
`while` loop writes exactly the `sectors_total - s(N-1)` sectors
`s(N-1) .. sectors_total-1` and then evaluates its condition on
`sl[sectors_total]`, an entry outside the array `sect_list` allocated: the
loop has no test of `sect` against `sectors_total`. -/
theorem carve_last_image_result (dev : Device) (bs : bootsector) (buf0 buf1 : Buf)
    (il : List image)
    (hscan : find_images dev bs buf0 = .ok (buf1, il)) (hN : il.length ≤ 65535)
    (i : Nat) (hi : i < il.length) (hlast : i + 1 = il.length) :
    ∃ sl r, sect_list bs il = some sl ∧
      (carve_images dev bs sl il 0 buf1)[i]? = some r ∧
      r.n = bs.sectors_total - (il.get ⟨i, hi⟩).start ∧
      r.out = sector_run dev bs.sector_size.toNat (il.get ⟨i, hi⟩).start.toNat
        (bs.sectors_total - (il.get ⟨i, hi⟩).start).toNat ∧
      r.sect = bs.sectors_total ∧ sl_at sl r.sect = none ∧ r.ending = .map_overrun := by
  obtain ⟨hs0, hs1⟩ := scan_sector_size_bounds dev bs buf0 buf1 il hscan
    (by intro h; rw [h] at hi; simp at hi)
  obtain ⟨ss, hs⟩ : ∃ ss : Nat, bs.sector_size = (ss : Int) :=
    ⟨bs.sector_size.toNat, by omega⟩
  have hss : ss ≤ 4096 := by omega
  obtain ⟨sl, hsl⟩ := sect_list_after_scan dev bs buf0 buf1 il hscan
  have hfacts := scan_and_map_facts dev bs ss buf0 buf1 il sl hs hss hscan hsl
  have hprev : ∀ k (hk : k < il.length), k < i → ∀ b,
      (carve_image dev bs sl ((0 + k : Nat) : Int) (il.get ⟨k, hk⟩).start b).ending
        = .stopped := by
    intro k hk hki b
    obtain ⟨b', hb'⟩ := carve_image_before_next dev bs ss buf0 buf1 il sl hs hss hscan hsl k
      (by omega) (by omega) b
    rw [Nat.zero_add, hb']
  obtain ⟨b, hb⟩ := carve_images_get dev bs sl il 0 buf1 i hi hprev
  obtain ⟨b', hb'⟩ := carve_image_last dev bs ss buf0 buf1 il sl hs hss hscan hsl
    (by omega) i hi hlast b
  rw [Nat.zero_add, hb'] at hb
  refine ⟨sl, _, hsl, hb, rfl, ?_, rfl, ?_, rfl⟩
  · rw [hs, Int.toNat_ofNat]
  · have hlen := hfacts.2.2.2.1
    have hpos := (hfacts.2.1 _ (List.get_mem il i hi))
    simp only [sl_at]
    rw [if_pos (by omega), List.getElem?_eq_none (by omega)]

/-- C2 (amended): for at most 65535 images the loop of `main` reaches the last
image, and by the time the sector index of its `while` loop reaches
`sectors_total` it has written exactly `sectors_total - s(N-1)` sectors, the
device's sectors `s(N-1) .. sectors_total-1` in order. -/
theorem carve_last_image_emits_to_end (dev : Device) (bs : bootsector) (buf0 buf1 : Buf)
    (il : List image)
    (hscan : find_images dev bs buf0 = .ok (buf1, il)) (hN : il.length ≤ 65535)
    (i : Nat) (hi : i < il.length) (hlast : i + 1 = il.length) :
    ∃ sl r, sect_list bs il = some sl ∧
      (carve_images dev bs sl il 0 buf1)[i]? = some r ∧
      r.sect = bs.sectors_total ∧
      r.n = bs.sectors_total - (il.get ⟨i, hi⟩).start ∧
      r.out = sector_run dev bs.sector_size.toNat (il.get ⟨i, hi⟩).start.toNat
        (bs.sectors_total - (il.get ⟨i, hi⟩).start).toNat := by
  obtain ⟨sl, r, h1, h2, h3, h4, h5, -, -⟩ :=
    carve_last_image_result dev bs buf0 buf1 il hscan hN i hi hlast
  exact ⟨sl, r, h1, h2, h5, h3, h4⟩

theorem carve_last_image_emits_to_end_witness :
    find_images tiny_dev tiny_bs [] = .ok (sector_bytes tiny_dev 512 7, tiny_images) ∧
    tiny_images.length ≤ 65535 ∧
    ∃ (hi : 1 < tiny_images.length) (sl : List Nat) (r : CarveResult),
      sect_list tiny_bs tiny_images = some sl ∧
      (carve_images tiny_dev tiny_bs sl tiny_images 0 (sector_bytes tiny_dev 512 7))[1]? = some r ∧
      r.sect = tiny_bs.sectors_total ∧
      r.n = tiny_bs.sectors_total - (tiny_images.get ⟨1, hi⟩).start ∧
      r.out = sector_run tiny_dev tiny_bs.sector_size.toNat (tiny_images.get ⟨1, hi⟩).start.toNat
        (tiny_bs.sectors_total - (tiny_images.get ⟨1, hi⟩).start).toNat :=
  ⟨tiny_scan, by decide, by decide,
    carve_last_image_emits_to_end tiny_dev tiny_bs [] (sector_bytes tiny_dev 512 7) tiny_images
      tiny_scan (by decide) 1 (by decide) (by decide)⟩

/-! ## A medium with more than 65535 images -/

/-- The first bytes of the buffer after a sector was read are the sector's. -/
theorem at_sector_bytes (dev : Device) (ss j k : Nat) (rest : List Nat) (hk : k < ss) :
    Buf.at (sector_bytes dev ss j ++ rest) k = (dev.byte (ss * j + k)).val := by
  unfold Buf.at sector_bytes
  rw [List.getD_eq_getElem?_getD, List.getElem?_append_left (by simpa using hk)]
  simp [hk]

theorem big_dev_byte (j k : Nat) (hk : k < 512) :
    (big_dev.byte (512 * j + k)).val = if k = 0 then 0xff else if k = 1 then 0xd8 else 0 := by
  have e : (512 * j + k) % 512 = k := by omega
  simp only [big_dev, e]
  split
  · rfl
  · split <;> rfl

theorem big_dev_header (j : Nat) (rest : List Nat) :
    jpeg_header (sector_bytes big_dev 512 j ++ rest) = 27248 := by
  have h0 := at_sector_bytes big_dev 512 j 0 rest (by omega)
  have h1 := at_sector_bytes big_dev 512 j 1 rest (by omega)
  have h2 := at_sector_bytes big_dev 512 j 2 rest (by omega)
  rw [big_dev_byte j _ (by omega)] at h0 h1 h2
  unfold jpeg_header
  rw [h0, h1, h2]
  simp

theorem big_dev_sector_ok (j : Nat) (hj : j < 65538) : sector_ok big_dev 512 j := by
  unfold sector_ok big_dev
  simp only
  omega

theorem marker_image_succ (base a k : Nat) :
    marker_image (base + 1) (a + 1) k = marker_image base a (k + 1) := by
  have e1 : base + 1 + k = base + (k + 1) := by omega
  have e2 : a + 1 + k = a + (k + 1) := by omega
  unfold marker_image
  rw [e1, e2]

/-- On `big_dev` the scan records every sector it visits. -/
theorem big_dev_scan_loop :
    ∀ (count a : Nat) (buf : Buf) (l : List image), a + count ≤ 65538 →
      ∃ buf', find_images_loop big_dev big_bs count (a : Int) buf l =
        .ok (buf', l ++ (List.range count).map (marker_image l.length a)) := by
  intro count
  induction count with
  | zero => intro a buf l _; exact ⟨buf, by simp [find_images_loop]⟩
  | succ count ih =>
    intro a buf l h
    have hr := read_sector_of_ok big_dev big_bs buf 512 a rfl (by omega)
      (big_dev_sector_ok a (by omega))
    obtain ⟨buf', hb⟩ := ih (a + 1) (sector_bytes big_dev 512 a ++ buf.drop 512)
      (l ++ [marker_image l.length a 0]) (by omega)
    refine ⟨buf', ?_⟩
    have hl : (l ++ [marker_image l.length a 0]) ++
        (List.range count).map (marker_image (l ++ [marker_image l.length a 0]).length (a + 1))
        = l ++ (List.range (count + 1)).map (marker_image l.length a) := by
      rw [List.range_succ_eq_map, List.map_cons, List.map_map, List.append_assoc,
        List.singleton_append, List.length_append, List.length_singleton]
      have hf : marker_image (l.length + 1) (a + 1) = marker_image l.length a ∘ Nat.succ :=
        funext (fun k => marker_image_succ l.length a k)
      rw [hf]
    have hc : ((a : Int) + 1) = ((a + 1 : Nat) : Int) := by push_cast; rfl
    have hm : ({ id := (l.length : Int), start := (a : Int), type := 27248 } : image)
        = marker_image l.length a 0 := rfl
    rw [find_images_loop_succ, hr]
    simp only [big_dev_header]
    rw [if_pos (by decide), hc, hm, hb, hl]

theorem big_dev_scan (buf0 : Buf) :
    ∃ buf1, find_images big_dev big_bs buf0 = .ok (buf1, big_images) := by
  obtain ⟨buf', h⟩ := big_dev_scan_loop 65537 1 buf0 [] (by omega)
  refine ⟨buf', ?_⟩
  have hc : (big_bs.sectors_total - 1).toNat = 65537 := by decide
  have e : ([] : List image) ++ (List.range 65537).map (marker_image ([] : List image).length 1)
      = big_images := by
    rw [List.nil_append, List.length_nil, big_images]
  rw [e, Nat.cast_one] at h
  unfold find_images
  rw [hc]
  exact h

/-- The entry of the map at the start sector of image `k` of `big_images`. -/
theorem big_map_entry (sl : List Nat)
    (hmark : ∀ k (hk : k < big_images.length),
      sl[(big_images.get ⟨k, hk⟩).start.toNat]? = some (wrap_u16 k))
    (k : Nat) (hk : k < 65537) : sl[k + 1]? = some (wrap_u16 k) := by
  have hk' : k < big_images.length := by rw [big_images_length]; exact hk
  have h := hmark k hk'
  rw [big_images_start k hk'] at h
  have e : ((k : Int) + 1).toNat = k + 1 := by omega
  rw [e] at h
  exact h

/-- The scan `main` runs is `find_images` under the geometry and on the buffer
`read_bootsector` left. -/
theorem scan_device_of (dev : Device) (env : Env) (buf buf' : Buf) (bs' : bootsector)
    (buf1 : Buf) (il : List image)
    (hb : read_bootsector dev env bs_initial buf = .ok (buf', bs'))
    (hf : find_images dev bs' buf' = .ok (buf1, il)) :
    scan_device dev env buf = .ok (bs', buf1, il) := by
  unfold scan_device
  rw [hb]
  simp only [hf]

set_option maxRecDepth 100000 in
/-- The geometry `read_bootsector` resolves on `big_dev` under `FAT_NO_SIG`:
the default sector size 512 and the device length divided by it. -/
theorem big_dev_boot :
    read_bootsector big_dev env_no_sig bs_initial [] = .ok (boot_buf big_dev [], big_bs) := by
  decide

/-- The run of `main` on `big_dev` under `FAT_NO_SIG`: the geometry, the scan,
the map, and the `while` loops of the images 65534, 65535 and 65536 on any
buffer: image 65534 (start 65535) writes two sectors, image 65535 (start
65536) one, image 65536 (start 65537) none; all three end on the loop
condition at sector 65537, and so do the loops of all images before them. -/
theorem big_dev_carve :
    ∃ (buf1 : Buf) (sl : List Nat),
      scan_device big_dev env_no_sig [] = .ok (big_bs, buf1, big_images) ∧
      sect_list big_bs big_images = some sl ∧
      (∀ k (hk : k < big_images.length), k < 65534 → ∀ b,
        (carve_image big_dev big_bs sl ((0 + k : Nat) : Int)
          (big_images.get ⟨k, hk⟩).start b).ending = .stopped) ∧
      (∀ b, ∃ b', carve_image big_dev big_bs sl 65534 65535 b =
        ⟨sector_bytes big_dev 512 65535 ++ sector_bytes big_dev 512 65536, 2, 65537, b',
          .stopped⟩) ∧
      (∀ b, ∃ b', carve_image big_dev big_bs sl 65535 65536 b =
        ⟨sector_bytes big_dev 512 65536, 1, 65537, b', .stopped⟩) ∧
      (∀ b, carve_image big_dev big_bs sl 65536 65537 b = ⟨[], 0, 65537, b, .stopped⟩) := by
  obtain ⟨buf1, hscan⟩ := big_dev_scan (boot_buf big_dev [])
  have hrun : scan_device big_dev env_no_sig [] = .ok (big_bs, buf1, big_images) :=
    scan_device_of big_dev env_no_sig [] (boot_buf big_dev []) big_bs buf1 big_images
      big_dev_boot hscan
  obtain ⟨sl, hsl⟩ := sect_list_after_scan big_dev big_bs _ buf1 big_images hscan
  have hs : big_bs.sector_size = ((512 : Nat) : Int) := rfl
  obtain ⟨-, -, -, hlen, hmark, -⟩ :=
    scan_and_map_facts big_dev big_bs 512 _ buf1 big_images sl hs (by omega) hscan hsl
  have hlen' : sl.length = 65538 := by rw [hlen]; rfl
  have e0 := big_map_entry sl hmark 65534 (by omega)
  have e1 := big_map_entry sl hmark 65535 (by omega)
  have e2 := big_map_entry sl hmark 65536 (by omega)
  refine ⟨buf1, sl, hrun, hsl, ?_, ?_, ?_, ?_⟩
  · intro k hk hki b
    obtain ⟨b', hb'⟩ := carve_image_before_next big_dev big_bs 512 _ buf1 big_images sl hs
      (by omega) hscan hsl k (by rw [big_images_length]; omega) (by omega) b
    rw [Nat.zero_add, hb']
  · intro b
    refine ⟨sector_bytes big_dev 512 65536 ++
      (sector_bytes big_dev 512 65535 ++ b.drop 512).drop 512, ?_⟩
    unfold carve_image
    rw [hlen']
    show carve_loop big_dev big_bs sl ((65534 : Nat) : Int) (65538 + 1) ((65535 : Nat) : Int)
      0 b [] = _
    rw [carve_loop_step big_dev big_bs sl ((65534 : Nat) : Int) 512 hs (by omega) 65538 65535 0
      b [] _ e0 (Or.inr (by decide)) (big_dev_sector_ok _ (by omega))]
    rw [carve_loop_step big_dev big_bs sl ((65534 : Nat) : Int) 512 hs (by omega) 65537 65536
      (0 + 1) _ _ _ e1 (Or.inl (by decide)) (big_dev_sector_ok _ (by omega))]
    rw [carve_loop_stop big_dev big_bs sl ((65534 : Nat) : Int) 65536 65537 (0 + 1 + 1) _ _ _ e2
      (by decide) (by decide), List.nil_append]
    rfl
  · intro b
    refine ⟨sector_bytes big_dev 512 65536 ++ b.drop 512, ?_⟩
    unfold carve_image
    rw [hlen']
    show carve_loop big_dev big_bs sl ((65535 : Nat) : Int) (65538 + 1) ((65536 : Nat) : Int)
      0 b [] = _
    rw [carve_loop_step big_dev big_bs sl ((65535 : Nat) : Int) 512 hs (by omega) 65538 65536 0
      b [] _ e1 (Or.inl (by decide)) (big_dev_sector_ok _ (by omega))]
    rw [carve_loop_stop big_dev big_bs sl ((65535 : Nat) : Int) 65537 65537 (0 + 1) _ _ _ e2
      (by decide) (by decide), List.nil_append]
    rfl
  · intro b
    unfold carve_image
    rw [hlen']
    show carve_loop big_dev big_bs sl ((65536 : Nat) : Int) (65538 + 1) ((65537 : Nat) : Int)
      0 b [] = _
    rw [carve_loop_stop big_dev big_bs sl ((65536 : Nat) : Int) 65538 65537 0 _ _ _ e2
      (by decide) (by decide)]
    rfl

/-- C1 fails beyond 65535 images: on `big_dev` under `FAT_NO_SIG` the scan
finds 65537 images at the sectors 1 .. 65537; image 65534 starts at sector
65535 and image 65535 at sector 65536, one sector later, yet the `while` loop
of image 65534 writes two sectors: the entry of image 65535 holds `0xffff` and
does not stop the loop. -/
theorem carve_runs_past_image_65535 :
    ∃ (buf1 : Buf) (sl : List Nat) (r : CarveResult)
      (h4 : 65534 < big_images.length) (h5 : 65534 + 1 < big_images.length),
      scan_device big_dev env_no_sig [] = .ok (big_bs, buf1, big_images) ∧
      sect_list big_bs big_images = some sl ∧
      (carve_images big_dev big_bs sl big_images 0 buf1)[65534]? = some r ∧
      (big_images.get ⟨65534 + 1, h5⟩).start - (big_images.get ⟨65534, h4⟩).start = 1 ∧
      r.n = 2 ∧ r.ending = .stopped := by
  obtain ⟨buf1, sl, hscan, hsl, hprev, h34, -, -⟩ := big_dev_carve
  have h4 : 65534 < big_images.length := by rw [big_images_length]; omega
  have h5 : 65534 + 1 < big_images.length := by rw [big_images_length]; omega
  obtain ⟨b, hb⟩ := carve_images_get big_dev big_bs sl big_images 0 buf1 65534 h4 hprev
  have hst : (big_images.get ⟨65534, h4⟩).start = 65535 := by
    rw [big_images_start]; rfl
  obtain ⟨b', hb'⟩ := h34 b
  have hidx : (((0 + 65534 : Nat) : Int)) = 65534 := rfl
  rw [hst, hidx, hb'] at hb
  refine ⟨buf1, sl, _, h4, h5, hscan, hsl, hb, ?_, rfl, rfl⟩
  rw [big_images_start, big_images_start]
  omega

/-- C2 fails beyond 65535 images: on `big_dev` (65538 sectors) under
`FAT_NO_SIG` the last of the 65537 images, image 65536, starts at sector
65537, so one sector remains up to `sectors_total`; its entry in the map
holds 0, the image number reduced to 16 bits, and its `while` loop ends at
once, having written nothing. -/
theorem carve_last_image_65536_writes_nothing :
    ∃ (buf1 : Buf) (sl : List Nat) (r : CarveResult) (h6 : 65536 < big_images.length),
      scan_device big_dev env_no_sig [] = .ok (big_bs, buf1, big_images) ∧
      sect_list big_bs big_images = some sl ∧
      65536 + 1 = big_images.length ∧
      (carve_images big_dev big_bs sl big_images 0 buf1)[65536]? = some r ∧
      big_bs.sectors_total - (big_images.get ⟨65536, h6⟩).start = 1 ∧
      r.n = 0 ∧ r.out = [] ∧ r.ending = .stopped := by
  obtain ⟨buf1, sl, hscan, hsl, hprev, h34, h35, h36⟩ := big_dev_carve
  have h4 : 65534 < big_images.length := by rw [big_images_length]; omega
  have h5 : 65535 < big_images.length := by rw [big_images_length]; omega
  have h6 : 65536 < big_images.length := by rw [big_images_length]; omega
  have hst4 : (big_images.get ⟨65534, h4⟩).start = 65535 := by rw [big_images_start]; rfl
  have hst5 : (big_images.get ⟨65535, h5⟩).start = 65536 := by rw [big_images_start]; rfl
  have hst6 : (big_images.get ⟨65536, h6⟩).start = 65537 := by rw [big_images_start]; rfl
  have hall : ∀ k (hk : k < big_images.length), k < 65536 → ∀ b,
      (carve_image big_dev big_bs sl ((0 + k : Nat) : Int)
        (big_images.get ⟨k, hk⟩).start b).ending = .stopped := by
    intro k hk hki b
    by_cases hk4 : k < 65534
    · exact hprev k hk hk4 b
    · by_cases hk5 : k = 65534
      · subst hk5
        obtain ⟨b', hb'⟩ := h34 b
        have hidx : (((0 + 65534 : Nat) : Int)) = 65534 := rfl
        rw [hst4, hidx, hb']
      · have hk6 : k = 65535 := by omega
        subst hk6
        obtain ⟨b', hb'⟩ := h35 b
        have hidx : (((0 + 65535 : Nat) : Int)) = 65535 := rfl
        rw [hst5, hidx, hb']
  obtain ⟨b, hb⟩ := carve_images_get big_dev big_bs sl big_images 0 buf1 65536 h6 hall
  have hidx : (((0 + 65536 : Nat) : Int)) = 65536 := rfl
  rw [hst6, hidx, h36 b] at hb
  refine ⟨buf1, sl, _, h6, hscan, hsl, by rw [big_images_length], hb, ?_, rfl, rfl, rfl⟩
  rw [hst6]
  rfl

/-! ## read_bootsector -/

theorem boot_buf_at (dev : Device) (buf : Buf) (k : Nat) (hk : k < 512) :
    (boot_buf dev buf).at k = (dev.byte k).val := by
  unfold boot_buf
  rw [at_sector_bytes dev 512 0 k _ hk]
  simp

theorem boot_buf_at_lt (dev : Device) (buf : Buf) (k : Nat) (hk : k < 512) :
    (boot_buf dev buf).at k < 256 := by
  rw [boot_buf_at dev buf k hk]
  exact (dev.byte k).isLt

theorem le16_boot_buf (dev : Device) (buf : Buf) (k : Nat) (hk : k + 1 < 512) :
    le16 (boot_buf dev buf) k = (dev_le16 dev k : Int) := by
  unfold le16 dev_le16
  rw [boot_buf_at dev buf k (by omega), boot_buf_at dev buf (k + 1) hk, Nat.shiftLeft_eq]
  congr 1
  omega

theorem or_bytes_eq (a b c d : Nat) (ha : a < 256) (hb : b < 256) (hc : c < 256) :
    a ||| (b <<< 8) ||| (c <<< 16) ||| (d <<< 24) = a + 256 * b + 65536 * c + 16777216 * d := by
  have h1 : a ||| (b <<< 8) = a + 256 * b := by
    rw [Nat.shiftLeft_eq, Nat.or_comm, Nat.mul_comm]
    have := Nat.mul_add_lt_is_or (i := 8) (b := a) (by omega) b
    omega
  have h2 : (a + 256 * b) ||| (c <<< 16) = a + 256 * b + 65536 * c := by
    rw [Nat.shiftLeft_eq, Nat.or_comm, Nat.mul_comm]
    have := Nat.mul_add_lt_is_or (i := 16) (b := a + 256 * b) (by omega) c
    omega
  have h3 : (a + 256 * b + 65536 * c) ||| (d <<< 24) = a + 256 * b + 65536 * c + 16777216 * d := by
    rw [Nat.shiftLeft_eq, Nat.or_comm, Nat.mul_comm]
    have := Nat.mul_add_lt_is_or (i := 24) (b := a + 256 * b + 65536 * c) (by omega) d
    omega
  rw [h1, h2, h3]

theorem le32_boot_buf (dev : Device) (buf : Buf) (k : Nat) (hk : k + 3 < 512) :
    le32 (boot_buf dev buf) k = wrap32 (dev_le32 dev k : Int) := by
  unfold le32 dev_le32
  rw [or_bytes_eq _ _ _ _ (boot_buf_at_lt dev buf k (by omega))
    (boot_buf_at_lt dev buf (k + 1) (by omega)) (boot_buf_at_lt dev buf (k + 2) (by omega)),
    boot_buf_at dev buf k (by omega), boot_buf_at dev buf (k + 1) (by omega),
    boot_buf_at dev buf (k + 2) (by omega), boot_buf_at dev buf (k + 3) (by omega)]

/-- On a device that holds a whole first sector, `read_bootsector` gets past
the read; what follows depends on the buffer `boot_buf`. -/
theorem read_bootsector_of_size (dev : Device) (env : Env) (bs : bootsector) (buf : Buf)
    (hsize : 512 ≤ dev.size) :
    read_bootsector dev env bs buf =
      if signature_exit env (boot_buf dev buf) then .error .no_signature
      else
        match size_fallback dev (decode_bootsector env { bs with sector_size := 512 }
            (boot_buf dev buf)) with
        | .error e => .error e
        | .ok bs' => .ok (boot_buf dev buf, apply_override env bs') := by
  have hok : sector_ok dev 512 0 := ⟨by omega, by omega⟩
  have hr := read_sector_of_ok dev { bs with sector_size := 512 } buf 512 0 rfl (by omega) hok
  unfold read_bootsector boot_buf
  simp only [Nat.cast_zero] at hr
  simp only [hr]

/-- When `read_bootsector` returns, the buffer holds sector 0 and `bs` is the
decoded boot sector after the size fallback and the override. -/
theorem read_bootsector_ok_inv (dev : Device) (env : Env) (bs : bootsector) (buf buf' : Buf)
    (bs' : bootsector) (h : read_bootsector dev env bs buf = .ok (buf', bs')) :
    ∃ bs1, size_fallback dev (decode_bootsector env { bs with sector_size := 512 } buf')
        = .ok bs1 ∧ bs' = apply_override env bs1 ∧ signature_exit env buf' = false := by
  unfold read_bootsector at h
  simp only at h
  split at h
  · cases h
  · rename_i b hb
    split at h
    · cases h
    · rename_i hsig
      split at h
      · cases h
      · rename_i bs1 hbs1
        simp only [Except.ok.injEq, Prod.mk.injEq] at h
        obtain ⟨rfl, rfl⟩ := h
        exact ⟨bs1, hbs1, rfl, by simpa using hsig⟩

theorem extended_fields_keeps (bs : bootsector) (buf : Buf) :
    (extended_fields bs buf).sector_size = bs.sector_size ∧
    (extended_fields bs buf).sectors_total = bs.sectors_total ∧
    (extended_fields bs buf).fat_type = bs.fat_type := by
  unfold extended_fields
  split
  · exact ⟨rfl, rfl, rfl⟩
  · split <;> exact ⟨rfl, rfl, rfl⟩

theorem reread_keeps (bs : bootsector) (buf : Buf) :
    (reread_sectors_total bs buf).sector_size = bs.sector_size ∧
    (reread_sectors_total bs buf).fat_type = bs.fat_type := by
  unfold reread_sectors_total
  split <;> exact ⟨rfl, rfl⟩

theorem detect_fat_type_keeps (env : Env) (bs : bootsector) (buf : Buf) :
    (detect_fat_type env bs buf).sector_size = bs.sector_size ∧
    (detect_fat_type env bs buf).sectors_total = bs.sectors_total := by
  unfold detect_fat_type
  simp only
  split <;> split <;> exact ⟨rfl, rfl⟩

theorem detect_fat_type_value (env : Env) (bs : bootsector) (buf : Buf) :
    (detect_fat_type env bs buf).fat_type =
      if buf.at 66 = 0x29 then 32 else wrap8 (env.FAT_TYPE.getD 16) := by
  unfold detect_fat_type
  simp only
  split <;> rfl

theorem check_sector_size_keeps (env : Env) (bs : bootsector) :
    (check_sector_size env bs).sectors_total = bs.sectors_total := by
  unfold check_sector_size
  split <;> rfl

/-- The sector size `read_bootsector` holds from line 122 on. -/
theorem decode_sector_size (env : Env) (bs : bootsector) (buf : Buf) :
    (decode_bootsector env bs buf).sector_size =
      if le16 buf 11 = 512 ∨ le16 buf 11 = 1024 ∨ le16 buf 11 = 2048 ∨ le16 buf 11 = 4096 then
        le16 buf 11
      else env.FAT_SECTOR_SIZE.getD 512 := by
  unfold decode_bootsector
  simp only
  rw [(extended_fields_keeps _ _).1, (reread_keeps _ _).1, (detect_fat_type_keeps _ _ _).1]
  unfold check_sector_size parse_fields
  simp only
  split <;> rfl

/-- The FAT type `read_bootsector` holds from line 134 on. -/
theorem decode_fat_type (env : Env) (bs : bootsector) (buf : Buf) :
    (decode_bootsector env bs buf).fat_type =
      if buf.at 66 = 0x29 then 32 else wrap8 (env.FAT_TYPE.getD 16) := by
  unfold decode_bootsector
  simp only
  rw [(extended_fields_keeps _ _).2.2, (reread_keeps _ _).2, detect_fat_type_value]

theorem reread_value (bs : bootsector) (buf : Buf) :
    (reread_sectors_total bs buf).sectors_total =
      if bs.sectors_total = 0 ∧ bs.fat_type > 12 then le32 buf 32 else bs.sectors_total := by
  unfold reread_sectors_total
  split <;> rfl

/-- The sector count `read_bootsector` holds when it reaches line 162. -/
theorem decode_sectors_total (env : Env) (bs : bootsector) (buf : Buf) :
    (decode_bootsector env bs buf).sectors_total =
      if le16 buf 19 = 0 ∧ (decode_bootsector env bs buf).fat_type > 12 then le32 buf 32
      else le16 buf 19 := by
  rw [decode_fat_type]
  unfold decode_bootsector
  simp only
  rw [(extended_fields_keeps _ _).2.1, reread_value, (detect_fat_type_keeps _ _ _).2,
    check_sector_size_keeps, detect_fat_type_value]
  rfl

theorem size_fallback_keeps (dev : Device) (bs bs1 : bootsector)
    (h : size_fallback dev bs = .ok bs1) :
    bs1.sector_size = bs.sector_size ∧ bs1.fat_type = bs.fat_type := by
  unfold size_fallback at h
  split at h
  · split at h
    · cases h
    · simp only [Except.ok.injEq] at h
      subst h
      exact ⟨rfl, rfl⟩
  · simp only [Except.ok.injEq] at h
    subst h
    exact ⟨rfl, rfl⟩

theorem apply_override_keeps (env : Env) (bs : bootsector) :
    (apply_override env bs).sector_size = bs.sector_size ∧
    (apply_override env bs).fat_type = bs.fat_type := by
  unfold apply_override
  split <;> exact ⟨rfl, rfl⟩

theorem apply_override_none (env : Env) (bs : bootsector) (h : env.FAT_SECTORS_TOTAL = none) :
    apply_override env bs = bs := by
  unfold apply_override
  rw [h]

theorem apply_override_some (env : Env) (bs : bootsector) (v : Int)
    (h : env.FAT_SECTORS_TOTAL = some v) :
    (apply_override env bs).sectors_total = v := by
  unfold apply_override
  rw [h]

/-! ## Geometry resolution: the claims -/

theorem signature_exit_of_sig (dev : Device) (env : Env) (buf : Buf)
    (h0 : dev.byte 510 = 0x55) (h1 : dev.byte 511 = 0xaa) :
    signature_exit env (boot_buf dev buf) = false := by
  unfold signature_exit
  rw [boot_buf_at dev buf 510 (by omega), boot_buf_at dev buf 511 (by omega), h0, h1]
  rfl

/-- With a non-zero sector size the size fallback returns, and it leaves a
sector count other than 0 and 0xffff alone. -/
theorem size_fallback_of_ne_zero (dev : Device) (bs : bootsector) (h : bs.sector_size ≠ 0) :
    ∃ bs1, size_fallback dev bs = .ok bs1 ∧
      (bs.sectors_total ≠ 0 → bs.sectors_total ≠ 0xffff → bs1 = bs) := by
  unfold size_fallback
  by_cases hc : bs.sectors_total = 0 ∨ bs.sectors_total = 0xffff
  · rw [if_pos hc, if_neg h]
    exact ⟨_, rfl, fun h1 h2 => by rcases hc with hc | hc; exact absurd hc h1; exact absurd hc h2⟩
  · rw [if_neg hc]
    exact ⟨_, rfl, fun _ _ => rfl⟩

set_option maxRecDepth 100000 in
/-- The geometry `read_bootsector` resolves on `tiny_dev`. -/
theorem tiny_boot :
    read_bootsector tiny_dev env_none bs_initial [] = .ok (boot_buf tiny_dev [], resolved_bs 8) := by
  decide

set_option maxRecDepth 100000 in
/-- The geometry `read_bootsector` resolves on `tiny_dev` under
`FAT_SECTORS_TOTAL=6`. -/
theorem tiny_boot_override :
    read_bootsector tiny_dev env_total_six bs_initial []
      = .ok (boot_buf tiny_dev [], resolved_bs 6) := by
  decide

/-- C6 (amended): on a boot sector with the signature and a supported
sector-size field, with no `FAT_SECTORS_TOTAL` override, `read_bootsector`
returns with `sector_size` equal to the field, and with `sectors_total` equal
to the encoded count whenever that count is neither 0 nor 0xffff: the 16-bit
field when it is non-zero, otherwise, when the resolved FAT type is above 12
and the value fits an `int`, the 32-bit field. -/
theorem bootsector_geometry_decoded (dev : Device) (env : Env) (bs : bootsector) (buf : Buf)
    (hsize : 512 ≤ dev.size)
    (hsig0 : dev.byte 510 = 0x55) (hsig1 : dev.byte 511 = 0xaa)
    (hss : dev_le16 dev 11 = 512 ∨ dev_le16 dev 11 = 1024 ∨ dev_le16 dev 11 = 2048
      ∨ dev_le16 dev 11 = 4096)
    (hno : env.FAT_SECTORS_TOTAL = none) :
    ∃ buf' bs', read_bootsector dev env bs buf = .ok (buf', bs') ∧
      bs'.sector_size = (dev_le16 dev 11 : Int) ∧
      (dev_le16 dev 19 ≠ 0 → dev_le16 dev 19 ≠ 0xffff →
        bs'.sectors_total = (dev_le16 dev 19 : Int)) ∧
      (dev_le16 dev 19 = 0 → 12 < bs'.fat_type → dev_le32 dev 32 ≠ 0 →
        dev_le32 dev 32 ≠ 0xffff → dev_le32 dev 32 < 2147483648 →
        bs'.sectors_total = (dev_le32 dev 32 : Int)) := by
  have h11 := le16_boot_buf dev buf 11 (by omega)
  have h19 := le16_boot_buf dev buf 19 (by omega)
  have h32 := le32_boot_buf dev buf 32 (by omega)
  have hsz := decode_sector_size env { bs with sector_size := 512 } (boot_buf dev buf)
  have htot := decode_sectors_total env { bs with sector_size := 512 } (boot_buf dev buf)
  rw [h11] at hsz
  rw [h19, h32] at htot
  have hset : (dev_le16 dev 11 : Int) = 512 ∨ (dev_le16 dev 11 : Int) = 1024
      ∨ (dev_le16 dev 11 : Int) = 2048 ∨ (dev_le16 dev 11 : Int) = 4096 := by omega
  rw [if_pos hset] at hsz
  obtain ⟨bs1, hfb, hkeep⟩ := size_fallback_of_ne_zero dev
    (decode_bootsector env { bs with sector_size := 512 } (boot_buf dev buf))
    (by rw [hsz]; omega)
  have hk := size_fallback_keeps dev _ bs1 hfb
  refine ⟨boot_buf dev buf, bs1, ?_, ?_, ?_, ?_⟩
  · rw [read_bootsector_of_size dev env bs buf hsize,
      signature_exit_of_sig dev env buf hsig0 hsig1]
    rw [if_neg Bool.false_ne_true, hfb]
    dsimp only
    rw [apply_override_none env bs1 hno]
  · rw [hk.1, hsz]
  · intro h1 h2
    have hne : ¬ ((dev_le16 dev 19 : Int) = 0 ∧
        (decode_bootsector env { bs with sector_size := 512 } (boot_buf dev buf)).fat_type > 12) :=
      fun hc => h1 (by omega)
    rw [if_neg hne] at htot
    rw [hkeep (by rw [htot]; omega) (by rw [htot]; omega), htot]
  · intro h0 hft h1 h2 h3
    rw [hk.2] at hft
    have hc : (dev_le16 dev 19 : Int) = 0 ∧
        (decode_bootsector env { bs with sector_size := 512 } (boot_buf dev buf)).fat_type > 12 :=
      ⟨by omega, hft⟩
    rw [if_pos hc, wrap32_natCast_of_lt _ h3] at htot
    rw [hkeep (by rw [htot]; omega) (by rw [htot]; omega), htot]

theorem bootsector_geometry_decoded_witness :
    512 ≤ tiny_dev.size ∧ tiny_dev.byte 510 = 0x55 ∧ tiny_dev.byte 511 = 0xaa ∧
    (dev_le16 tiny_dev 11 = 512 ∨ dev_le16 tiny_dev 11 = 1024 ∨ dev_le16 tiny_dev 11 = 2048
      ∨ dev_le16 tiny_dev 11 = 4096) ∧
    env_none.FAT_SECTORS_TOTAL = none ∧
    ∃ buf' bs', read_bootsector tiny_dev env_none bs_initial [] = .ok (buf', bs') ∧
      bs'.sector_size = (dev_le16 tiny_dev 11 : Int) ∧
      (dev_le16 tiny_dev 19 ≠ 0 → dev_le16 tiny_dev 19 ≠ 0xffff →
        bs'.sectors_total = (dev_le16 tiny_dev 19 : Int)) ∧
      (dev_le16 tiny_dev 19 = 0 → 12 < bs'.fat_type → dev_le32 tiny_dev 32 ≠ 0 →
        dev_le32 tiny_dev 32 ≠ 0xffff → dev_le32 tiny_dev 32 < 2147483648 →
        bs'.sectors_total = (dev_le32 tiny_dev 32 : Int)) :=
  ⟨by decide, by decide, by decide, by decide, rfl,
    bootsector_geometry_decoded tiny_dev env_none bs_initial [] (by decide) (by decide)
      (by decide) (by decide) rfl⟩

set_option maxRecDepth 100000 in
/-- C6 fails on the sentinel: the boot sector of `sentinel_dev` has the
signature, the sector size 512 and the 16-bit count `0xffff`, no override is
set, and `read_bootsector` resolves `sectors_total` to 8, the device length
divided by 512, not to the encoded 65535. -/
theorem bootsector_count_ffff_replaced :
    sentinel_dev.byte 510 = 0x55 ∧ sentinel_dev.byte 511 = 0xaa ∧
    dev_le16 sentinel_dev 11 = 512 ∧ dev_le16 sentinel_dev 19 = 65535 ∧
    env_none.FAT_SECTORS_TOTAL = none ∧
    read_bootsector sentinel_dev env_none bs_initial []
      = .ok (boot_buf sentinel_dev [], resolved_bs 8) ∧
    (resolved_bs 8).sectors_total ≠ (dev_le16 sentinel_dev 19 : Int) := by
  decide

theorem size_fallback_value (dev : Device) (bs bs1 : bootsector)
    (h : size_fallback dev bs = .ok bs1)
    (hdec : bs.sectors_total = 0 ∨ bs.sectors_total = 0xffff) :
    bs1.sectors_total = wrap32 (Int.tdiv (dev.size : Int) bs.sector_size) := by
  unfold size_fallback at h
  rw [if_pos hdec] at h
  split at h
  · cases h
  · simp only [Except.ok.injEq] at h
    rw [← h]

/-- C7 (amended): with no `FAT_SECTORS_TOTAL` override, when sector 0 can be
read, the signature test passes and the sector count decoded from the boot
sector (after the 32-bit re-read) is 0 or 0xffff, `read_bootsector` returns
with `sectors_total` equal to the device length divided by the resolved sector
size, rounded down, provided the sector size is positive and the quotient is
below `2^31`. -/
theorem sectors_total_from_device_length (dev : Device) (env : Env) (bs : bootsector)
    (buf : Buf)
    (hsize : 512 ≤ dev.size)
    (hsig : signature_exit env (boot_buf dev buf) = false)
    (hno : env.FAT_SECTORS_TOTAL = none)
    (hdec : (decode_bootsector env { bs with sector_size := 512 }
        (boot_buf dev buf)).sectors_total = 0 ∨
      (decode_bootsector env { bs with sector_size := 512 }
        (boot_buf dev buf)).sectors_total = 0xffff)
    (hpos : 0 < (decode_bootsector env { bs with sector_size := 512 }
      (boot_buf dev buf)).sector_size)
    (hq : dev.size / (decode_bootsector env { bs with sector_size := 512 }
      (boot_buf dev buf)).sector_size.toNat < 2147483648) :
    ∃ bs', read_bootsector dev env bs buf = .ok (boot_buf dev buf, bs') ∧
      bs'.sector_size = (decode_bootsector env { bs with sector_size := 512 }
        (boot_buf dev buf)).sector_size ∧
      bs'.sectors_total = ((dev.size / bs'.sector_size.toNat : Nat) : Int) := by
  obtain ⟨bs1, hfb, -⟩ := size_fallback_of_ne_zero dev
    (decode_bootsector env { bs with sector_size := 512 } (boot_buf dev buf)) (by omega)
  have hk := size_fallback_keeps dev _ bs1 hfb
  have hv := size_fallback_value dev _ bs1 hfb hdec
  refine ⟨bs1, ?_, hk.1, ?_⟩
  · rw [read_bootsector_of_size dev env bs buf hsize, hsig, if_neg Bool.false_ne_true, hfb]
    dsimp only
    rw [apply_override_none env bs1 hno]
  · rw [← hk.1] at hpos hq hv
    obtain ⟨ss, hss⟩ : ∃ ss : Nat, bs1.sector_size = (ss : Int) :=
      ⟨bs1.sector_size.toNat, by omega⟩
    rw [hss, ← Int.ofNat_tdiv] at hv
    rw [hss, Int.toNat_ofNat] at hq ⊢
    rw [hv, wrap32_natCast_of_lt _ hq]

set_option maxRecDepth 100000 in
theorem sectors_total_from_device_length_witness :
    512 ≤ sentinel_dev.size ∧
    signature_exit env_none (boot_buf sentinel_dev []) = false ∧
    env_none.FAT_SECTORS_TOTAL = none ∧
    (decode_bootsector env_none { bs_initial with sector_size := 512 }
      (boot_buf sentinel_dev [])).sectors_total = 0xffff ∧
    (decode_bootsector env_none { bs_initial with sector_size := 512 }
      (boot_buf sentinel_dev [])).sector_size = 512 ∧
    sentinel_dev.size / 512 = 8 ∧
    ∃ bs', read_bootsector sentinel_dev env_none bs_initial []
        = .ok (boot_buf sentinel_dev [], bs') ∧
      bs'.sector_size = (decode_bootsector env_none { bs_initial with sector_size := 512 }
        (boot_buf sentinel_dev [])).sector_size ∧
      bs'.sectors_total = ((sentinel_dev.size / bs'.sector_size.toNat : Nat) : Int) :=
  ⟨by decide, by decide, rfl, by decide, by decide, by decide,
    sectors_total_from_device_length sentinel_dev env_none bs_initial [] (by decide) (by decide)
      rfl (by decide) (by decide) (by decide)⟩

set_option maxRecDepth 100000 in
/-- C7 fails on a large device: on the one-tebibyte `huge_dev`, whose decoded
sector count is 0, the resolved sector size is 512 and the quotient of the
device length is `2^31`, but `read_bootsector` resolves `sectors_total` to
`-2^31`: the quotient does not fit the `int` it is stored in. -/
theorem sectors_total_overflows_int :
    env_none.FAT_SECTORS_TOTAL = none ∧
    (decode_bootsector env_none { bs_initial with sector_size := 512 }
      (boot_buf huge_dev [])).sectors_total = 0 ∧
    read_bootsector huge_dev env_none bs_initial []
      = .ok (boot_buf huge_dev [], resolved_bs (-2147483648)) ∧
    huge_dev.size / (resolved_bs (-2147483648)).sector_size.toNat = 2147483648 ∧
    (resolved_bs (-2147483648)).sectors_total
      ≠ ((huge_dev.size / (resolved_bs (-2147483648)).sector_size.toNat : Nat) : Int) := by
  decide

/-- C8: when `read_bootsector` returns and `FAT_SECTORS_TOTAL` is configured
with the value `v`, the resolved `sectors_total` is `v`; when it is not
configured, the resolved geometry is the one lines 101-167 computed. -/
theorem sectors_total_override (dev : Device) (env : Env) (bs : bootsector)
    (buf buf' : Buf) (bs' : bootsector)
    (h : read_bootsector dev env bs buf = .ok (buf', bs')) :
    (∀ v, env.FAT_SECTORS_TOTAL = some v → bs'.sectors_total = v) ∧
    (env.FAT_SECTORS_TOTAL = none →
      size_fallback dev (decode_bootsector env { bs with sector_size := 512 } buf')
        = .ok bs') := by
  obtain ⟨bs1, hfb, hbs', -⟩ := read_bootsector_ok_inv dev env bs buf buf' bs' h
  subst hbs'
  refine ⟨fun v hv => apply_override_some env bs1 v hv, fun hno => ?_⟩
  rw [apply_override_none env bs1 hno]
  exact hfb

set_option maxRecDepth 100000 in
theorem sectors_total_override_witness :
    read_bootsector tiny_dev env_total_six bs_initial []
      = .ok (boot_buf tiny_dev [], resolved_bs 6) ∧
    ((∀ v, env_total_six.FAT_SECTORS_TOTAL = some v → (resolved_bs 6).sectors_total = v) ∧
    (env_total_six.FAT_SECTORS_TOTAL = none →
      size_fallback tiny_dev (decode_bootsector env_total_six
        { bs_initial with sector_size := 512 } (boot_buf tiny_dev [])) = .ok (resolved_bs 6))) :=
  ⟨tiny_boot_override,
    sectors_total_override tiny_dev env_total_six bs_initial [] (boot_buf tiny_dev [])
      (resolved_bs 6) tiny_boot_override⟩

set_option maxRecDepth 100000 in
/-- C9: the boot sector of `half_sig_dev` ends in `55 00`, not in `55 aa`,
and `FAT_NO_SIG` is not set, yet `read_bootsector` does not exit on the
signature test: it returns the geometry 512 / 8. -/
theorem half_signature_accepted :
    half_sig_dev.byte 510 = 0x55 ∧ half_sig_dev.byte 511 ≠ 0xaa ∧
    env_none.FAT_NO_SIG = false ∧
    read_bootsector half_sig_dev env_none bs_initial []
      = .ok (boot_buf half_sig_dev [], resolved_bs 8) := by
  decide

set_option maxRecDepth 100000 in
/-- C3: sector 1 of `zero_tag_dev` starts with `ff d8`, and the scan under
the geometry resolved from the boot sector (512-byte sectors, 2 sectors)
returns an empty list: `find_jpeg_header` returns the tag bytes 6-7, which
are zero here, and `find_images` reads that 0 as "no marker". -/
theorem marker_with_zero_tag_not_detected :
    zero_tag_dev.byte (512 * 1) = 0xff ∧ zero_tag_dev.byte (512 * 1 + 1) = 0xd8 ∧
    scan_device zero_tag_dev env_none []
      = .ok (resolved_bs 2, sector_bytes zero_tag_dev 512 1, []) := by
  decide

/-- C10 (amended): on a boot sector with the signature whose sector-size
field is none of 512, 1024, 2048, 4096, `read_bootsector` never returns with
another `sector_size` than the value of `FAT_SECTOR_SIZE`, or 512 when that is
not configured; unless that value is 0 it does return, and the scan `main`
runs next is `find_images` under that geometry. -/
theorem unsupported_sector_size_falls_back (dev : Device) (env : Env) (buf : Buf)
    (hsize : 512 ≤ dev.size)
    (hsig0 : dev.byte 510 = 0x55) (hsig1 : dev.byte 511 = 0xaa)
    (hss : dev_le16 dev 11 ≠ 512 ∧ dev_le16 dev 11 ≠ 1024 ∧ dev_le16 dev 11 ≠ 2048
      ∧ dev_le16 dev 11 ≠ 4096) :
    (∀ buf' bs', read_bootsector dev env bs_initial buf = .ok (buf', bs') →
      bs'.sector_size = env.FAT_SECTOR_SIZE.getD 512) ∧
    (env.FAT_SECTOR_SIZE.getD 512 ≠ 0 →
      ∃ buf' bs', read_bootsector dev env bs_initial buf = .ok (buf', bs') ∧
        bs'.sector_size = env.FAT_SECTOR_SIZE.getD 512 ∧
        scan_device dev env buf =
          match find_images dev bs' buf' with
          | .error e => .error e
          | .ok (b, il) => .ok (bs', b, il)) := by
  have h11 := le16_boot_buf dev buf 11 (by omega)
  have hsz := decode_sector_size env { bs_initial with sector_size := 512 } (boot_buf dev buf)
  rw [h11] at hsz
  have hset : ¬ ((dev_le16 dev 11 : Int) = 512 ∨ (dev_le16 dev 11 : Int) = 1024
      ∨ (dev_le16 dev 11 : Int) = 2048 ∨ (dev_le16 dev 11 : Int) = 4096) := by omega
  rw [if_neg hset] at hsz
  have hall : ∀ buf' bs', read_bootsector dev env bs_initial buf = .ok (buf', bs') →
      bs'.sector_size = env.FAT_SECTOR_SIZE.getD 512 := by
    intro buf' bs' h
    rw [read_bootsector_of_size dev env bs_initial buf hsize,
      signature_exit_of_sig dev env buf hsig0 hsig1, if_neg Bool.false_ne_true] at h
    split at h
    · cases h
    · rename_i bs1 hfb
      simp only [Except.ok.injEq, Prod.mk.injEq] at h
      rw [← h.2, (apply_override_keeps env bs1).1, (size_fallback_keeps dev _ bs1 hfb).1, hsz]
  refine ⟨hall, fun hv => ?_⟩
  obtain ⟨bs1, hfb, -⟩ := size_fallback_of_ne_zero dev
    (decode_bootsector env { bs_initial with sector_size := 512 } (boot_buf dev buf))
    (by rw [hsz]; exact hv)
  have hrb : read_bootsector dev env bs_initial buf
      = .ok (boot_buf dev buf, apply_override env bs1) := by
    rw [read_bootsector_of_size dev env bs_initial buf hsize,
      signature_exit_of_sig dev env buf hsig0 hsig1, if_neg Bool.false_ne_true, hfb]
  refine ⟨boot_buf dev buf, apply_override env bs1, hrb, hall _ _ hrb, ?_⟩
  unfold scan_device
  rw [hrb]

theorem unsupported_sector_size_falls_back_witness :
    512 ≤ odd_size_dev.size ∧ odd_size_dev.byte 510 = 0x55 ∧ odd_size_dev.byte 511 = 0xaa ∧
    (dev_le16 odd_size_dev 11 ≠ 512 ∧ dev_le16 odd_size_dev 11 ≠ 1024
      ∧ dev_le16 odd_size_dev 11 ≠ 2048 ∧ dev_le16 odd_size_dev 11 ≠ 4096) ∧
    ((∀ buf' bs', read_bootsector odd_size_dev env_size_1024 bs_initial [] = .ok (buf', bs') →
      bs'.sector_size = env_size_1024.FAT_SECTOR_SIZE.getD 512) ∧
    (env_size_1024.FAT_SECTOR_SIZE.getD 512 ≠ 0 →
      ∃ buf' bs', read_bootsector odd_size_dev env_size_1024 bs_initial [] = .ok (buf', bs') ∧
        bs'.sector_size = env_size_1024.FAT_SECTOR_SIZE.getD 512 ∧
        scan_device odd_size_dev env_size_1024 [] =
          match find_images odd_size_dev bs' buf' with
          | .error e => .error e
          | .ok (b, il) => .ok (bs', b, il))) :=
  ⟨by decide, by decide, by decide, by decide,
    unsupported_sector_size_falls_back odd_size_dev env_size_1024 [] (by decide) (by decide)
      (by decide) (by decide)⟩

set_option maxRecDepth 100000 in
/-- C10 fails for `FAT_SECTOR_SIZE=0`: the boot sector of `odd_size_dev` has
the signature and the sector-size field 300, the configured value 0 becomes
the sector size, and `read_bootsector` ends in the division of the device
length by it. -/
theorem zero_sector_size_divides :
    odd_size_dev.byte 510 = 0x55 ∧ odd_size_dev.byte 511 = 0xaa ∧
    dev_le16 odd_size_dev 11 = 300 ∧ env_size_zero.FAT_SECTOR_SIZE = some 0 ∧
    read_bootsector odd_size_dev env_size_zero bs_initial [] = .error .division_by_zero := by
  decide

/-! ## Geometry resolution: validity, FAT type, sector size option -/

/-- When `read_bootsector` returns, the device holds a whole first sector and
the buffer is `boot_buf`. -/
theorem read_bootsector_ok_buf (dev : Device) (env : Env) (bs : bootsector) (buf buf' : Buf)
    (bs' : bootsector) (h : read_bootsector dev env bs buf = .ok (buf', bs')) :
    512 ≤ dev.size ∧ buf' = boot_buf dev buf := by
  have hsize : 512 ≤ dev.size := by
    cases hr : read_sector dev { bs with sector_size := 512 } buf ((0 : Nat) : Int) with
    | error e =>
      unfold read_bootsector at h
      simp only [Nat.cast_zero] at hr
      simp only [hr] at h
      cases h
    | ok b =>
      have := read_sector_ok_inv dev { bs with sector_size := 512 } buf b 512 0 rfl (by omega) hr
      have h2 := this.2
      omega
  refine ⟨hsize, ?_⟩
  rw [read_bootsector_of_size dev env bs buf hsize] at h
  split at h
  · cases h
  · split at h
    · cases h
    · simp only [Except.ok.injEq, Prod.mk.injEq] at h
      exact h.1.symm

/-- The geometry `read_bootsector` returns, in terms of the decoded boot
sector: sector size and FAT type are the decoded ones. -/
theorem read_bootsector_ok_fields (dev : Device) (env : Env) (bs : bootsector) (buf buf' : Buf)
    (bs' : bootsector) (h : read_bootsector dev env bs buf = .ok (buf', bs')) :
    bs'.sector_size =
      (decode_bootsector env { bs with sector_size := 512 } (boot_buf dev buf)).sector_size ∧
    bs'.fat_type =
      (decode_bootsector env { bs with sector_size := 512 } (boot_buf dev buf)).fat_type := by
  obtain ⟨-, hb⟩ := read_bootsector_ok_buf dev env bs buf buf' bs' h
  obtain ⟨bs1, hfb, hbs', -⟩ := read_bootsector_ok_inv dev env bs buf buf' bs' h
  rw [hb] at hfb
  have hk := size_fallback_keeps dev _ bs1 hfb
  have ho := apply_override_keeps env bs1
  rw [hbs', ho.1, ho.2, hk.1, hk.2]
  exact ⟨rfl, rfl⟩

/-- C11 (amended): when `read_bootsector` returns, the resolved `sector_size`
is one of 512, 1024, 2048, 4096 provided `FAT_SECTOR_SIZE` is not configured
or is configured with one of these values; and the resolved `sectors_total`
is strictly positive provided `FAT_SECTORS_TOTAL` is not configured, the
32-bit count field is below `2^31`, and the device holds at least one and
fewer than `2^31` sectors of the resolved (positive) size. -/
theorem resolved_geometry_valid (dev : Device) (env : Env) (bs : bootsector) (buf buf' : Buf)
    (bs' : bootsector) (h : read_bootsector dev env bs buf = .ok (buf', bs')) :
    ((env.FAT_SECTOR_SIZE = none ∨ env.FAT_SECTOR_SIZE = some 512
        ∨ env.FAT_SECTOR_SIZE = some 1024 ∨ env.FAT_SECTOR_SIZE = some 2048
        ∨ env.FAT_SECTOR_SIZE = some 4096) →
      (bs'.sector_size = 512 ∨ bs'.sector_size = 1024 ∨ bs'.sector_size = 2048
        ∨ bs'.sector_size = 4096)) ∧
    (env.FAT_SECTORS_TOTAL = none → 0 < bs'.sector_size → bs'.sector_size ≤ (dev.size : Int) →
      dev.size / bs'.sector_size.toNat < 2147483648 → dev_le32 dev 32 < 2147483648 →
      0 < bs'.sectors_total) := by
  obtain ⟨hsize, hb⟩ := read_bootsector_ok_buf dev env bs buf buf' bs' h
  obtain ⟨bs1, hfb, hbs', -⟩ := read_bootsector_ok_inv dev env bs buf buf' bs' h
  rw [hb] at hfb
  have hfields := read_bootsector_ok_fields dev env bs buf buf' bs' h
  have hsz := decode_sector_size env { bs with sector_size := 512 } (boot_buf dev buf)
  have htot := decode_sectors_total env { bs with sector_size := 512 } (boot_buf dev buf)
  rw [le16_boot_buf dev buf 11 (by omega)] at hsz
  rw [le16_boot_buf dev buf 19 (by omega), le32_boot_buf dev buf 32 (by omega)] at htot
  refine ⟨?_, ?_⟩
  · intro henv
    rw [hfields.1, hsz]
    split
    · assumption
    · rcases henv with he | he | he | he | he <;> rw [he] <;> simp
  · intro hno hpos hle hq h32
    rw [apply_override_none env bs1 hno] at hbs'
    subst hbs'
    have hk := size_fallback_keeps dev _ bs' hfb
    have hD : 0 ≤ (decode_bootsector env { bs with sector_size := 512 }
        (boot_buf dev buf)).sectors_total := by
      rw [htot]
      split
      · rw [wrap32_natCast_of_lt _ h32]; omega
      · omega
    by_cases hdec : (decode_bootsector env { bs with sector_size := 512 }
          (boot_buf dev buf)).sectors_total = 0 ∨
        (decode_bootsector env { bs with sector_size := 512 }
          (boot_buf dev buf)).sectors_total = 0xffff
    · have hv := size_fallback_value dev _ bs' hfb hdec
      obtain ⟨ss, hss⟩ : ∃ ss : Nat, bs'.sector_size = (ss : Int) :=
        ⟨bs'.sector_size.toNat, by omega⟩
      rw [← hk.1, hss, ← Int.ofNat_tdiv] at hv
      rw [hss, Int.toNat_ofNat] at hq
      rw [hss] at hpos hle
      rw [hv, wrap32_natCast_of_lt _ hq]
      have : 0 < dev.size / ss := Nat.div_pos (by omega) (by omega)
      omega
    · obtain ⟨bs2, hfb2, hkeep⟩ := size_fallback_of_ne_zero dev
        (decode_bootsector env { bs with sector_size := 512 } (boot_buf dev buf))
        (by rw [← hk.1]; omega)
      rw [hfb] at hfb2
      have hsame : bs' = bs2 := Except.ok.inj hfb2
      have := hkeep (fun h0 => hdec (Or.inl h0)) (fun h0 => hdec (Or.inr h0))
      rw [hsame, this]
      have hne : (decode_bootsector env { bs with sector_size := 512 }
          (boot_buf dev buf)).sectors_total ≠ 0 := fun h0 => hdec (Or.inl h0)
      omega

set_option maxRecDepth 100000 in
theorem resolved_geometry_valid_witness :
    read_bootsector tiny_dev env_none bs_initial [] = .ok (boot_buf tiny_dev [], resolved_bs 8) ∧
    (((env_none.FAT_SECTOR_SIZE = none ∨ env_none.FAT_SECTOR_SIZE = some 512
        ∨ env_none.FAT_SECTOR_SIZE = some 1024 ∨ env_none.FAT_SECTOR_SIZE = some 2048
        ∨ env_none.FAT_SECTOR_SIZE = some 4096) →
      ((resolved_bs 8).sector_size = 512 ∨ (resolved_bs 8).sector_size = 1024
        ∨ (resolved_bs 8).sector_size = 2048 ∨ (resolved_bs 8).sector_size = 4096)) ∧
    (env_none.FAT_SECTORS_TOTAL = none → 0 < (resolved_bs 8).sector_size →
      (resolved_bs 8).sector_size ≤ (tiny_dev.size : Int) →
      tiny_dev.size / (resolved_bs 8).sector_size.toNat < 2147483648 →
      dev_le32 tiny_dev 32 < 2147483648 →
      0 < (resolved_bs 8).sectors_total)) :=
  ⟨tiny_boot, resolved_geometry_valid tiny_dev env_none bs_initial [] (boot_buf tiny_dev [])
    (resolved_bs 8) tiny_boot⟩

set_option maxRecDepth 100000 in
/-- C11 fails under `FAT_SECTOR_SIZE=300`: on `odd_size_dev`, whose
sector-size field is 300, `read_bootsector` returns with `sector_size` 300,
none of 512, 1024, 2048, 4096. -/
theorem resolved_sector_size_300 :
    read_bootsector odd_size_dev env_size_300 bs_initial []
      = .ok (boot_buf odd_size_dev [], { resolved_bs 13 with sector_size := 300 }) ∧
    ¬ ((300 : Int) = 512 ∨ (300 : Int) = 1024 ∨ (300 : Int) = 2048 ∨ (300 : Int) = 4096) := by
  decide

set_option maxRecDepth 100000 in
/-- C12: the boot sector of `fat16_dev` has `0x29` at offset 38 and not at
offset 66, and with `FAT_TYPE=12` configured `read_bootsector` resolves
`fat_type` to 12, not to 16: the `else` of the test on offset 66 overwrites
what the test on offset 38 stored. -/
theorem fat16_marker_overwritten :
    fat16_dev.byte 38 = 0x29 ∧ fat16_dev.byte 66 ≠ 0x29 ∧ env_type_12.FAT_TYPE = some 12 ∧
    (read_bootsector fat16_dev env_type_12 bs_initial []).map (fun r => r.2.fat_type)
      = .ok 12 := by
  decide

/-- C13 (amended): when `read_bootsector` returns and `FAT_SECTOR_SIZE` is
configured with value `v`, the resolved `sector_size` is `v` if the
sector-size field of the boot sector is none of 512, 1024, 2048, 4096, and is
that field otherwise. -/
theorem sector_size_option (dev : Device) (env : Env) (bs : bootsector) (buf buf' : Buf)
    (bs' : bootsector) (v : Int)
    (h : read_bootsector dev env bs buf = .ok (buf', bs'))
    (hv : env.FAT_SECTOR_SIZE = some v) :
    ((dev_le16 dev 11 ≠ 512 ∧ dev_le16 dev 11 ≠ 1024 ∧ dev_le16 dev 11 ≠ 2048
        ∧ dev_le16 dev 11 ≠ 4096) → bs'.sector_size = v) ∧
    ((dev_le16 dev 11 = 512 ∨ dev_le16 dev 11 = 1024 ∨ dev_le16 dev 11 = 2048
        ∨ dev_le16 dev 11 = 4096) → bs'.sector_size = (dev_le16 dev 11 : Int)) := by
  have hfields := read_bootsector_ok_fields dev env bs buf buf' bs' h
  have hsz := decode_sector_size env { bs with sector_size := 512 } (boot_buf dev buf)
  rw [le16_boot_buf dev buf 11 (by omega)] at hsz
  refine ⟨fun hn => ?_, fun hy => ?_⟩
  · have hset : ¬ ((dev_le16 dev 11 : Int) = 512 ∨ (dev_le16 dev 11 : Int) = 1024
        ∨ (dev_le16 dev 11 : Int) = 2048 ∨ (dev_le16 dev 11 : Int) = 4096) := by omega
    rw [hfields.1, hsz, if_neg hset, hv]
    rfl
  · have hset : (dev_le16 dev 11 : Int) = 512 ∨ (dev_le16 dev 11 : Int) = 1024
        ∨ (dev_le16 dev 11 : Int) = 2048 ∨ (dev_le16 dev 11 : Int) = 4096 := by omega
    rw [hfields.1, hsz, if_pos hset]

set_option maxRecDepth 100000 in
theorem sector_size_option_witness :
    read_bootsector odd_size_dev env_size_1024 bs_initial []
      = .ok (boot_buf odd_size_dev [], { resolved_bs 4 with sector_size := 1024 }) ∧
    env_size_1024.FAT_SECTOR_SIZE = some 1024 ∧
    (((dev_le16 odd_size_dev 11 ≠ 512 ∧ dev_le16 odd_size_dev 11 ≠ 1024
        ∧ dev_le16 odd_size_dev 11 ≠ 2048 ∧ dev_le16 odd_size_dev 11 ≠ 4096) →
      ({ resolved_bs 4 with sector_size := 1024 } : bootsector).sector_size = 1024) ∧
    ((dev_le16 odd_size_dev 11 = 512 ∨ dev_le16 odd_size_dev 11 = 1024
        ∨ dev_le16 odd_size_dev 11 = 2048 ∨ dev_le16 odd_size_dev 11 = 4096) →
      ({ resolved_bs 4 with sector_size := 1024 } : bootsector).sector_size
        = (dev_le16 odd_size_dev 11 : Int))) :=
  ⟨by decide, rfl,
    sector_size_option odd_size_dev env_size_1024 bs_initial [] (boot_buf odd_size_dev [])
      { resolved_bs 4 with sector_size := 1024 } 1024 (by decide) rfl⟩

set_option maxRecDepth 100000 in
/-- C13 fails on a supported sector size: the boot sector of `tiny_dev` holds
the sector size 512, `FAT_SECTOR_SIZE=1024` is configured, and
`read_bootsector` resolves `sector_size` to 512. -/
theorem sector_size_option_ignored :
    dev_le16 tiny_dev 11 = 512 ∧ env_size_1024.FAT_SECTOR_SIZE = some 1024 ∧
    read_bootsector tiny_dev env_size_1024 bs_initial []
      = .ok (boot_buf tiny_dev [], resolved_bs 8) ∧
    (resolved_bs 8).sector_size ≠ 1024 := by
  decide

/-! ## Offsets, text fields, type tags -/

set_option maxRecDepth 100000 in
/-- C14: under the geometry resolved on `card_dev` (sector size 512,
31332352 sectors) the sector index 4194304 is below `sectors_total`, the exact
offset is `2^31`, and the `int` product `read_sector` hands to `lseek` is
`-2^31`: the seek fails and no byte of the sector is returned. -/
theorem sector_offset_overflows_int :
    read_bootsector card_dev env_none bs_initial []
      = .ok (boot_buf card_dev [], resolved_bs 31332352) ∧
    (0 : Int) ≤ 4194304 ∧ (4194304 : Int) < (resolved_bs 31332352).sectors_total ∧
    (4194304 : Int) * (resolved_bs 31332352).sector_size = 2147483648 ∧
    wrap32 ((resolved_bs 31332352).sector_size * 4194304) = -2147483648 ∧
    read_sector card_dev (resolved_bs 31332352) (boot_buf card_dev []) 4194304
      = .error .seek_failed := by
  decide

set_option maxRecDepth 100000 in
/-- C15: the OEM name field of `del_dev` starts with the byte `0x7f`, which
is not printable ASCII, and `read_bootsector` stores it as it is instead of
the placeholder `#` (35): the test is `c < 128`. -/
theorem del_byte_kept :
    del_dev.byte 3 = 0x7f ∧
    (read_bootsector del_dev env_none bs_initial []).map (fun r => r.2.oem_name)
      = .ok [0x7f, 35, 35, 35, 35, 35, 35, 35, 0, 0] := by
  decide

set_option maxRecDepth 100000 in
/-- C19: on `tagged_dev` the scan reports the JFIF sector with type 19014
(`'J' << 8 | 'F'`), the Exif sector with type 17784 (`'E' << 8 | 'x'`) and
the bare marker with type 27248 (`'j' << 8 | 'p'`), not with the tags 2, 3
and 1 the comment of `struct image` documents. -/
theorem type_is_two_tag_characters :
    (scan_device tagged_dev env_none []).map (fun r => r.2.2)
      = .ok [⟨0, 19014, 1⟩, ⟨1, 17784, 2⟩, ⟨2, 27248, 3⟩] ∧
    (19014 : Int) = 0x4a * 256 + 0x46 ∧ (17784 : Int) = 0x45 * 256 + 0x78 ∧
    (27248 : Int) = 0x6a * 256 + 0x70 := by
  decide

/-- C16: for at most 65535 images the loop of `main` reaches the last image,
and its `while` loop does not stop when the sector index reaches
`sectors_total`: it evaluates its condition there, reading `sl[sectors_total]`,
which is outside the array of `sectors_total` entries. -/
theorem carve_last_image_reads_past_map (dev : Device) (bs : bootsector) (buf0 buf1 : Buf)
    (il : List image)
    (hscan : find_images dev bs buf0 = .ok (buf1, il)) (hN : il.length ≤ 65535)
    (i : Nat) (hi : i < il.length) (hlast : i + 1 = il.length) :
    ∃ sl r, sect_list bs il = some sl ∧
      (carve_images dev bs sl il 0 buf1)[i]? = some r ∧
      r.sect = bs.sectors_total ∧ sl_at sl bs.sectors_total = none ∧
      r.ending = .map_overrun := by
  obtain ⟨sl, r, h1, h2, -, -, h5, h6, h7⟩ :=
    carve_last_image_result dev bs buf0 buf1 il hscan hN i hi hlast
  rw [h5] at h6
  exact ⟨sl, r, h1, h2, h5, h6, h7⟩

theorem carve_last_image_reads_past_map_witness :
    find_images tiny_dev tiny_bs [] = .ok (sector_bytes tiny_dev 512 7, tiny_images) ∧
    tiny_images.length ≤ 65535 ∧ 1 < tiny_images.length ∧ 1 + 1 = tiny_images.length ∧
    ∃ (sl : List Nat) (r : CarveResult),
      sect_list tiny_bs tiny_images = some sl ∧
      (carve_images tiny_dev tiny_bs sl tiny_images 0 (sector_bytes tiny_dev 512 7))[1]? = some r ∧
      r.sect = tiny_bs.sectors_total ∧ sl_at sl tiny_bs.sectors_total = none ∧
      r.ending = .map_overrun :=
  ⟨tiny_scan, by decide, by decide, by decide,
    carve_last_image_reads_past_map tiny_dev tiny_bs [] (sector_bytes tiny_dev 512 7) tiny_images
      tiny_scan (by decide) 1 (by decide) (by decide)⟩

/-! ## What every carved file starts with, and how the files tile the device -/

/-- The entry the loop of `main` records for image 65536 of `big_dev`: its
`while` loop ends at once. -/
theorem big_dev_entry_65536 :
    ∃ (buf1 : Buf) (sl : List Nat) (b : Buf),
      scan_device big_dev env_no_sig [] = .ok (big_bs, buf1, big_images) ∧
      sect_list big_bs big_images = some sl ∧
      (carve_images big_dev big_bs sl big_images 0 buf1)[65536]?
        = some ⟨[], 0, 65537, b, .stopped⟩ := by
  obtain ⟨buf1, sl, hscan, hsl, hprev, h34, h35, h36⟩ := big_dev_carve
  have h4 : 65534 < big_images.length := by rw [big_images_length]; omega
  have h5 : 65535 < big_images.length := by rw [big_images_length]; omega
  have h6 : 65536 < big_images.length := by rw [big_images_length]; omega
  have hst4 : (big_images.get ⟨65534, h4⟩).start = 65535 := by rw [big_images_start]; rfl
  have hst5 : (big_images.get ⟨65535, h5⟩).start = 65536 := by rw [big_images_start]; rfl
  have hst6 : (big_images.get ⟨65536, h6⟩).start = 65537 := by rw [big_images_start]; rfl
  have hall : ∀ k (hk : k < big_images.length), k < 65536 → ∀ b,
      (carve_image big_dev big_bs sl ((0 + k : Nat) : Int)
        (big_images.get ⟨k, hk⟩).start b).ending = .stopped := by
    intro k hk hki b
    by_cases hk4 : k < 65534
    · exact hprev k hk hk4 b
    · by_cases hk5 : k = 65534
      · subst hk5
        obtain ⟨b', hb'⟩ := h34 b
        have hidx : (((0 + 65534 : Nat) : Int)) = 65534 := rfl
        rw [hst4, hidx, hb']
      · have hk6 : k = 65535 := by omega
        subst hk6
        obtain ⟨b', hb'⟩ := h35 b
        have hidx : (((0 + 65535 : Nat) : Int)) = 65535 := rfl
        rw [hst5, hidx, hb']
  obtain ⟨b, hb⟩ := carve_images_get big_dev big_bs sl big_images 0 buf1 65536 h6 hall
  have hidx : (((0 + 65536 : Nat) : Int)) = 65536 := rfl
  rw [hst6, hidx, h36 b] at hb
  exact ⟨buf1, sl, b, hscan, hsl, hb⟩

/-- C17 fails beyond 65535 images: on `big_dev` under `FAT_NO_SIG` the scan
detects image 65536 (of 65537), and the output the loop of `main` carves for
it is empty. -/
theorem carve_image_65536_output_empty :
    ∃ (buf1 : Buf) (sl : List Nat) (r : CarveResult),
      scan_device big_dev env_no_sig [] = .ok (big_bs, buf1, big_images) ∧
      sect_list big_bs big_images = some sl ∧
      65536 < big_images.length ∧
      (carve_images big_dev big_bs sl big_images 0 buf1)[65536]? = some r ∧
      r.out = [] := by
  obtain ⟨buf1, sl, b, hscan, hsl, hb⟩ := big_dev_entry_65536
  exact ⟨buf1, sl, _, hscan, hsl, by rw [big_images_length]; omega, hb, rfl⟩

theorem sector_run_add (dev : Device) (ss : Nat) :
    ∀ (k1 a k2 : Nat),
      sector_run dev ss a (k1 + k2) = sector_run dev ss a k1 ++ sector_run dev ss (a + k1) k2 := by
  intro k1
  induction k1 with
  | zero => intro a k2; simp [sector_run]
  | succ k1 ih =>
    intro a k2
    have e : k1 + 1 + k2 = (k1 + k2) + 1 := by omega
    have e2 : a + (k1 + 1) = a + 1 + k1 := by omega
    rw [e, sector_run, sector_run, ih (a + 1) k2, List.append_assoc, e2]

theorem sector_run_length (dev : Device) (ss : Nat) :
    ∀ (k a : Nat), (sector_run dev ss a k).length = k * ss := by
  intro k
  induction k with
  | zero => intro a; simp [sector_run]
  | succ k ih =>
    intro a
    rw [sector_run, List.length_append, sector_bytes_length, ih (a + 1)]
    ring

/-- A non-empty run of sectors starts with its first sector. -/
theorem sector_run_take (dev : Device) (ss a k : Nat) (hk : 0 < k) :
    (sector_run dev ss a k).take ss = sector_bytes dev ss a := by
  obtain ⟨k', rfl⟩ : ∃ k', k = k' + 1 := ⟨k - 1, by omega⟩
  rw [sector_run, List.take_left' (sector_bytes_length dev ss a)]

theorem take_two_eq (l : List Nat) (h : 2 ≤ l.length) :
    l.take 2 = [Buf.at l 0, Buf.at l 1] := by
  match l, h with
  | a :: b :: t, _ => rfl

/-- A buffer on which `jpeg_header` is not 0 starts with `ff d8`. -/
theorem jpeg_header_ne_zero (buf : Buf) (h : jpeg_header buf ≠ 0) :
    buf.at 0 = 0xff ∧ buf.at 1 = 0xd8 := by
  unfold jpeg_header at h
  by_cases hc : buf.at 0 ≠ 0xff ∨ buf.at 1 ≠ 0xd8
  · rw [if_pos hc] at h
    exact absurd rfl h
  · constructor
    · by_contra h0; exact hc (Or.inl h0)
    · by_contra h1; exact hc (Or.inr h1)

/-- Every image the scan appends was recorded for a sector on which
`find_jpeg_header` returned the image's type, a value other than 0. -/
theorem find_images_loop_detected (dev : Device) (bs : bootsector) (ss : Nat)
    (hs : bs.sector_size = (ss : Int)) :
    ∀ (count a : Nat) (buf : Buf) (l : List image) (b : Buf) (l' : List image),
      find_images_loop dev bs count (a : Int) buf l = .ok (b, l') → ss * a < 4294967296 →
      (∀ x ∈ l, detected_at dev ss x) → ∀ x ∈ l', detected_at dev ss x := by
  intro count
  induction count with
  | zero =>
    intro a buf l b l' h _ hl
    simp only [find_images_loop, Except.ok.injEq, Prod.mk.injEq] at h
    rw [← h.2]
    exact hl
  | succ count ih =>
    intro a buf l b l' h hlt hl
    rw [find_images_loop_succ] at h
    cases hr : read_sector dev bs buf (a : Int) with
    | error e => rw [hr] at h; cases h
    | ok buf1 =>
      rw [hr] at h
      simp only at h
      have hok := read_sector_ok_inv dev bs buf buf1 ss a hs hlt hr
      have hb := read_sector_ok_bounds dev bs buf buf1 (a : Int) hr
      have hss : ss ≤ 4096 := by omega
      have heq := read_sector_of_ok dev bs buf ss a hs hss hok
      rw [hr] at heq
      have hbuf : buf1 = sector_bytes dev ss a ++ buf.drop ss := Except.ok.inj heq
      have hcast : ((a : Int) + 1) = ((a + 1 : Nat) : Int) := by push_cast; rfl
      rw [hcast] at h
      have hnext : ss * (a + 1) < 4294967296 := by
        have := hok.1
        rw [Nat.mul_succ]; omega
      refine ih (a + 1) buf1 _ b l' h hnext ?_
      intro x hx
      split at hx
      · rename_i hne
        rw [List.mem_append] at hx
        rcases hx with hx | hx
        · exact hl x hx
        · simp only [List.mem_singleton] at hx
          subst hx
          refine ⟨buf.drop ss, ?_, hne⟩
          simp only [Int.toNat_ofNat]
          rw [hbuf]
      · exact hl x hx

/-- Every image in the list `find_images` returns starts a sector whose first
two bytes are `ff d8`, when the sector size is at least 2. -/
theorem scan_images_start_with_marker (dev : Device) (bs : bootsector) (ss : Nat)
    (buf0 buf1 : Buf) (il : List image)
    (hs : bs.sector_size = (ss : Int)) (h2 : 2 ≤ ss)
    (hscan : find_images dev bs buf0 = .ok (buf1, il)) :
    ∀ x ∈ il, (sector_bytes dev ss x.start.toNat).take 2 = [0xff, 0xd8] := by
  intro x hx
  have hne : il ≠ [] := List.ne_nil_of_mem hx
  obtain ⟨-, hs1⟩ := scan_sector_size_bounds dev bs buf0 buf1 il hscan hne
  have hdet := find_images_loop_detected dev bs ss hs (bs.sectors_total - 1).toNat 1 buf0 []
    buf1 il (by simpa [find_images] using hscan) (by omega) (fun y hy => by simp at hy) x hx
  obtain ⟨rest, hty, hnz⟩ := hdet
  rw [hty] at hnz
  have hm := jpeg_header_ne_zero _ hnz
  rw [at_sector_bytes dev ss _ 0 rest (by omega), at_sector_bytes dev ss _ 1 rest (by omega)] at hm
  rw [take_two_eq _ (by rw [sector_bytes_length]; exact h2)]
  have e0 := at_sector_bytes dev ss x.start.toNat 0 [] (by omega)
  have e1 := at_sector_bytes dev ss x.start.toNat 1 [] (by omega)
  rw [List.append_nil] at e0 e1
  rw [e0, e1, hm.1, hm.2]

/-- The entry the loop of `main` records for an image that is not the last
one, for at most 65535 images: its `while` loop ended on its condition and
wrote the sectors from its start up to the next image's start. -/
theorem carve_entry_before_next (dev : Device) (bs : bootsector) (buf0 buf1 : Buf)
    (il : List image) (sl : List Nat)
    (hscan : find_images dev bs buf0 = .ok (buf1, il)) (hsl : sect_list bs il = some sl)
    (hN : il.length ≤ 65535) (i : Nat) (hi : i + 1 < il.length) :
    ∃ r, (carve_images dev bs sl il 0 buf1)[i]? = some r ∧
      r.ending = .stopped ∧
      r.out = sector_run dev bs.sector_size.toNat (il.get ⟨i, Nat.lt_of_succ_lt hi⟩).start.toNat
        ((il.get ⟨i + 1, hi⟩).start - (il.get ⟨i, Nat.lt_of_succ_lt hi⟩).start).toNat := by
  obtain ⟨hs0, hs1⟩ := scan_sector_size_bounds dev bs buf0 buf1 il hscan
    (by intro h; rw [h] at hi; simp at hi)
  obtain ⟨ss, hs⟩ : ∃ ss : Nat, bs.sector_size = (ss : Int) :=
    ⟨bs.sector_size.toNat, by omega⟩
  have hss : ss ≤ 4096 := by omega
  have hprev : ∀ k (hk : k < il.length), k < i → ∀ b,
      (carve_image dev bs sl ((0 + k : Nat) : Int) (il.get ⟨k, hk⟩).start b).ending
        = .stopped := by
    intro k hk hki b
    obtain ⟨b', hb'⟩ := carve_image_before_next dev bs ss buf0 buf1 il sl hs hss hscan hsl k
      (by omega) (by omega) b
    rw [Nat.zero_add, hb']
  obtain ⟨b, hb⟩ := carve_images_get dev bs sl il 0 buf1 i (Nat.lt_of_succ_lt hi) hprev
  obtain ⟨b', hb'⟩ := carve_image_before_next dev bs ss buf0 buf1 il sl hs hss hscan hsl i
    hi (by omega) b
  rw [Nat.zero_add, hb'] at hb
  refine ⟨_, hb, rfl, ?_⟩
  rw [hs, Int.toNat_ofNat]

/-- What a carved output that is a non-empty run of sectors from a detected
start sector looks like. -/
theorem run_starts_with_marker (dev : Device) (ss a m : Nat) (out : List Nat)
    (hout : out = sector_run dev ss a m) (hm : 0 < m) (h2 : 2 ≤ ss)
    (hmark : (sector_bytes dev ss a).take 2 = [0xff, 0xd8]) :
    out ≠ [] ∧ out.take ss = sector_bytes dev ss a ∧ out.take 2 = [0xff, 0xd8] := by
  obtain ⟨m', rfl⟩ : ∃ m', m = m' + 1 := ⟨m - 1, by omega⟩
  refine ⟨?_, ?_, ?_⟩
  · intro h
    have hl := sector_run_length dev ss (m' + 1) a
    rw [← hout, h, List.length_nil] at hl
    have : 0 < (m' + 1) * ss := Nat.mul_pos (by omega) (by omega)
    omega
  · rw [hout, sector_run_take dev ss a (m' + 1) (by omega)]
  · rw [hout, sector_run,
      List.take_append_of_le_length (by rw [sector_bytes_length]; exact h2), hmark]

/-- C17 (amended): when the sector size is at least 2 and the scan returns at
most 65535 images, the loop of `main` reaches every image, the output carved
for it is not empty, its first sector is the image's start sector, and its
first two bytes are `ff d8`. -/
theorem carved_file_starts_with_marker (dev : Device) (bs : bootsector) (buf0 buf1 : Buf)
    (il : List image)
    (hscan : find_images dev bs buf0 = .ok (buf1, il))
    (h2 : 2 ≤ bs.sector_size) (hN : il.length ≤ 65535)
    (i : Nat) (hi : i < il.length) :
    ∃ sl r, sect_list bs il = some sl ∧
      (carve_images dev bs sl il 0 buf1)[i]? = some r ∧
      r.out ≠ [] ∧
      r.out.take bs.sector_size.toNat
        = sector_bytes dev bs.sector_size.toNat (il.get ⟨i, hi⟩).start.toNat ∧
      r.out.take 2 = [0xff, 0xd8] := by
  obtain ⟨hs0, hs1⟩ := scan_sector_size_bounds dev bs buf0 buf1 il hscan
    (by intro h; rw [h] at hi; simp at hi)
  obtain ⟨ss, hs⟩ : ∃ ss : Nat, bs.sector_size = (ss : Int) :=
    ⟨bs.sector_size.toNat, by omega⟩
  have hss : ss ≤ 4096 := by omega
  have h2' : 2 ≤ ss := by omega
  obtain ⟨sl, hsl⟩ := sect_list_after_scan dev bs buf0 buf1 il hscan
  obtain ⟨hpw, hrange, -, -, -, -⟩ :=
    scan_and_map_facts dev bs ss buf0 buf1 il sl hs hss hscan hsl
  have hmark := scan_images_start_with_marker dev bs ss buf0 buf1 il hs h2' hscan
    (il.get ⟨i, hi⟩) (List.get_mem il i hi)
  have hra := hrange _ (List.get_mem il i hi)
  by_cases hlast : i + 1 < il.length
  · obtain ⟨r, hr, -, hout⟩ :=
      carve_entry_before_next dev bs buf0 buf1 il sl hscan hsl hN i hlast
    have hlt := starts_lt_of_lt hpw hi hlast (Nat.lt_succ_self i)
    rw [hs, Int.toNat_ofNat] at hout ⊢
    obtain ⟨g1, g2, g3⟩ := run_starts_with_marker dev ss _ _ r.out hout (by omega) h2' hmark
    exact ⟨sl, r, hsl, hr, g1, g2, g3⟩
  · obtain ⟨sl', r, hsl', hr, -, hout, -, -, -⟩ :=
      carve_last_image_result dev bs buf0 buf1 il hscan hN i hi (by omega)
    rw [hsl] at hsl'
    have hsame : sl = sl' := Option.some.inj hsl'
    subst hsame
    rw [hs, Int.toNat_ofNat] at hout ⊢
    obtain ⟨g1, g2, g3⟩ := run_starts_with_marker dev ss _ _ r.out hout (by omega) h2' hmark
    exact ⟨sl, r, hsl, hr, g1, g2, g3⟩

theorem carved_file_starts_with_marker_witness :
    find_images tiny_dev tiny_bs [] = .ok (sector_bytes tiny_dev 512 7, tiny_images) ∧
    (2 : Int) ≤ tiny_bs.sector_size ∧ tiny_images.length ≤ 65535 ∧
    ∃ (hi : 1 < tiny_images.length) (sl : List Nat) (r : CarveResult),
      sect_list tiny_bs tiny_images = some sl ∧
      (carve_images tiny_dev tiny_bs sl tiny_images 0 (sector_bytes tiny_dev 512 7))[1]? = some r ∧
      r.out ≠ [] ∧
      r.out.take tiny_bs.sector_size.toNat
        = sector_bytes tiny_dev tiny_bs.sector_size.toNat (tiny_images.get ⟨1, hi⟩).start.toNat ∧
      r.out.take 2 = [0xff, 0xd8] :=
  ⟨tiny_scan, by decide, by decide, by decide,
    carved_file_starts_with_marker tiny_dev tiny_bs [] (sector_bytes tiny_dev 512 7) tiny_images
      tiny_scan (by decide) (by decide) 1 (by decide)⟩

/-- Outputs that are consecutive runs of sectors concatenate to one run. -/
theorem tiling_prefix (dev : Device) (ss : Nat) (L : List CarveResult) (st : Nat → Int)
    (N : Nat) (h0 : 0 ≤ st 0) (hmono : ∀ k, k + 1 < N → st k ≤ st (k + 1))
    (hentry : ∀ k, k + 1 < N → ∃ r, L[k]? = some r ∧
      r.out = sector_run dev ss (st k).toNat (st (k + 1) - st k).toNat) :
    ∀ m, m < N → st 0 ≤ st m ∧ (L.take m).length = m ∧
      ((L.take m).map CarveResult.out).flatten
        = sector_run dev ss (st 0).toNat (st m - st 0).toNat := by
  intro m
  induction m with
  | zero =>
    intro _
    refine ⟨le_refl _, by simp, ?_⟩
    simp [sector_run]
  | succ m ih =>
    intro hm
    obtain ⟨hle, hlen, hcat⟩ := ih (by omega)
    obtain ⟨r, hr, hout⟩ := hentry m hm
    have hstep := hmono m hm
    have htake : L.take (m + 1) = L.take m ++ [r] := by
      rw [List.take_succ, hr]
      rfl
    refine ⟨by omega, ?_, ?_⟩
    · rw [htake, List.length_append, hlen]
      rfl
    · rw [htake, List.map_append, List.flatten_append, hcat]
      have e1 : (st (m + 1) - st 0).toNat = (st m - st 0).toNat + (st (m + 1) - st m).toNat := by
        omega
      have e2 : (st 0).toNat + (st m - st 0).toNat = (st m).toNat := by omega
      rw [e1, sector_run_add, e2, ← hout]
      simp

/-- C18: when the scan returns N images, 2 ≤ N ≤ 65535, the loop of `main`
records an output for each of the images 0 .. N-2, and these outputs,
concatenated in list order, are the device's sectors from `s(0)` up to
`s(N-1) - 1`, each once and in order. -/
theorem carved_files_tile_device (dev : Device) (bs : bootsector) (buf0 buf1 : Buf)
    (il : List image)
    (hscan : find_images dev bs buf0 = .ok (buf1, il))
    (h2 : 2 ≤ il.length) (hN : il.length ≤ 65535) :
    ∃ sl, sect_list bs il = some sl ∧
      ((carve_images dev bs sl il 0 buf1).take (il.length - 1)).length = il.length - 1 ∧
      (((carve_images dev bs sl il 0 buf1).take (il.length - 1)).map CarveResult.out).flatten
        = sector_run dev bs.sector_size.toNat
            (il.get ⟨0, by omega⟩).start.toNat
            ((il.get ⟨il.length - 1, by omega⟩).start - (il.get ⟨0, by omega⟩).start).toNat := by
  obtain ⟨hs0, hs1⟩ := scan_sector_size_bounds dev bs buf0 buf1 il hscan
    (by intro h; rw [h] at h2; simp at h2)
  obtain ⟨ss, hs⟩ : ∃ ss : Nat, bs.sector_size = (ss : Int) :=
    ⟨bs.sector_size.toNat, by omega⟩
  have hss : ss ≤ 4096 := by omega
  obtain ⟨sl, hsl⟩ := sect_list_after_scan dev bs buf0 buf1 il hscan
  obtain ⟨hpw, hrange, -, -, -, -⟩ :=
    scan_and_map_facts dev bs ss buf0 buf1 il sl hs hss hscan hsl
  obtain ⟨st, hst⟩ : ∃ st : Nat → Int, ∀ k (hk : k < il.length),
      st k = (il.get ⟨k, hk⟩).start := by
    refine ⟨fun k => (il.getD k ⟨0, 0, 0⟩).start, ?_⟩
    intro k hk
    simp only
    rw [List.getD_eq_getElem il _ hk]
    rfl
  have h0 : 0 ≤ st 0 := by
    rw [hst 0 (by omega)]
    have := (hrange _ (List.get_mem il 0 (by omega))).1
    omega
  have hmono : ∀ k, k + 1 < il.length → st k ≤ st (k + 1) := by
    intro k hk
    rw [hst k (by omega), hst (k + 1) hk]
    exact starts_le_of_le hpw (by omega) hk (Nat.le_succ k)
  have hentry : ∀ k, k + 1 < il.length → ∃ r,
      (carve_images dev bs sl il 0 buf1)[k]? = some r ∧
      r.out = sector_run dev ss (st k).toNat (st (k + 1) - st k).toNat := by
    intro k hk
    obtain ⟨r, hr, -, hout⟩ :=
      carve_entry_before_next dev bs buf0 buf1 il sl hscan hsl hN k hk
    refine ⟨r, hr, ?_⟩
    rw [hst k (by omega), hst (k + 1) hk, hout, hs, Int.toNat_ofNat]
  obtain ⟨-, hlen, hcat⟩ := tiling_prefix dev ss (carve_images dev bs sl il 0 buf1) st il.length
    h0 hmono hentry (il.length - 1) (by omega)
  have e0 := hst 0 (by omega)
  have e1 := hst (il.length - 1) (by omega)
  rw [e0, e1] at hcat
  refine ⟨sl, hsl, hlen, ?_⟩
  have hsz : bs.sector_size.toNat = ss := by rw [hs, Int.toNat_ofNat]
  rw [hsz]
  exact hcat

theorem carved_files_tile_device_witness :
    find_images tiny_dev tiny_bs [] = .ok (sector_bytes tiny_dev 512 7, tiny_images) ∧
    2 ≤ tiny_images.length ∧ tiny_images.length ≤ 65535 ∧
    ∃ sl, sect_list tiny_bs tiny_images = some sl ∧
      ((carve_images tiny_dev tiny_bs sl tiny_images 0 (sector_bytes tiny_dev 512 7)).take
        (tiny_images.length - 1)).length = tiny_images.length - 1 ∧
      (((carve_images tiny_dev tiny_bs sl tiny_images 0 (sector_bytes tiny_dev 512 7)).take
        (tiny_images.length - 1)).map CarveResult.out).flatten
        = sector_run tiny_dev tiny_bs.sector_size.toNat
            (tiny_images.get ⟨0, by decide⟩).start.toNat
            ((tiny_images.get ⟨tiny_images.length - 1, by decide⟩).start
              - (tiny_images.get ⟨0, by decide⟩).start).toNat :=
  ⟨tiny_scan, by decide, by decide,
    carved_files_tile_device tiny_dev tiny_bs [] (sector_bytes tiny_dev 512 7) tiny_images
      tiny_scan (by decide) (by decide)⟩

/-- The scan returns when every sector it visits lies on the device, is
addressed within the `int` range and fits the buffer. -/
theorem find_images_loop_returns (dev : Device) (bs : bootsector) (ss : Nat)
    (hs : bs.sector_size = (ss : Int)) (hss : ss ≤ 4096) :
    ∀ (count a : Nat) (buf : Buf) (l : List image),
      (∀ j, a ≤ j → j < a + count → sector_ok dev ss j) →
      ∃ b l', find_images_loop dev bs count (a : Int) buf l = .ok (b, l') := by
  intro count
  induction count with
  | zero => intro a buf l _; exact ⟨buf, l, rfl⟩
  | succ count ih =>
    intro a buf l hok
    have hr := read_sector_of_ok dev bs buf ss a hs hss (hok a (le_refl a) (by omega))
    have hcast : ((a : Int) + 1) = ((a + 1 : Nat) : Int) := by push_cast; rfl
    rw [find_images_loop_succ, hr]
    simp only
    rw [hcast]
    exact ih (a + 1) _ _ (fun j h1 h2 => hok j (by omega) (by omega))

/-- `find_images` returns a list when the sectors 1 .. `sectors_total - 1` lie
on the device and below the `int` range and the sector size fits the buffer. -/
theorem find_images_returns (dev : Device) (bs : bootsector) (buf : Buf)
    (hs0 : 0 ≤ bs.sector_size) (hs1 : bs.sector_size ≤ 4096)
    (hok : ∀ j : Nat, 1 ≤ j → (j : Int) < bs.sectors_total →
      sector_ok dev bs.sector_size.toNat j) :
    ∃ b il, find_images dev bs buf = .ok (b, il) := by
  obtain ⟨ss, hs⟩ : ∃ ss : Nat, bs.sector_size = (ss : Int) :=
    ⟨bs.sector_size.toNat, by omega⟩
  rw [hs, Int.toNat_ofNat] at hok
  exact find_images_loop_returns dev bs ss hs (by omega) (bs.sectors_total - 1).toNat 1 buf []
    (fun j h1 h2 => hok j h1 (by omega))

end FatGundel
